import Mathlib

/-!
Verification of the Brother P-touch / QL raster filter (rastertoptch) and its
companion stream decoder.  The definitions below are shallow embeddings of the
C sources: pure functions over `Nat` byte values and `List Nat` byte strings.
Machine bytes are modelled as natural numbers; wherever the C code truncates
(`putchar`, `& 0xff`, signed-char reinterpretation) the model applies the
corresponding `% 256` / bit operations explicitly.
-/

namespace Ptouch

/-- The 256-entry bit-mirror table from rastertoptch (`mirror`), as a function:
bit `j` of the result equals bit `7 - j` of the argument. -/
def byteReverse (b : Nat) : Nat :=
  (List.range 8).foldl (fun acc j => acc ||| (((b >>> j) &&& 1) <<< (7 - j))) 0

/-- Byte written by `APPEND_REPEATED_BYTE` for a repeat run of length `r`:
the signed char `1 - r` reinterpreted as an unsigned byte. -/
def encRep (r : Nat) : Nat := (257 - r) % 256

/-- Bytes written by `APPEND_MIXED_BYTES` for pending literals `m`:
a count byte (`min m.length 128 - 1`) followed by at most 128 literals. -/
def encMix (m : List Nat) : List Nat := ((m.take 128).length - 1) :: m.take 128

/-- Loop state of `RLE_store_line`'s encoding loop.  `out` models the bytes
written past the 3-byte prefix, `mix` the pending literal window
`[mix_start, rep_start)`, `repc` the pending repeat window size
`next - rep_start`, and `repv` the value `rep_val`. -/
structure RleSt where
  out : List Nat
  mix : List Nat
  repc : Nat
  repv : Nat
deriving Repr, DecidableEq

/-- The capping branch at the top of the loop body
(`if (next - rep_start >= 129)`). -/
def rleCap (s : RleSt) (v : Nat) : RleSt :=
  if 129 ≤ s.repc then ⟨s.out ++ [encRep s.repc, s.repv], [], 0, v⟩ else s

/-- The main dispatch of the loop body (`next_val == rep_val` or not),
including the loop-update `next++` that extends the repeat window. -/
def rleMain (s : RleSt) (v : Nat) : RleSt :=
  if v = s.repv then
    if s.repc = 2 ∧ 0 < s.mix.length then
      ⟨s.out ++ encMix s.mix, [], s.repc + 1, s.repv⟩
    else
      ⟨s.out, s.mix, s.repc + 1, s.repv⟩
  else
    if 2 < s.repc then
      ⟨s.out ++ [encRep s.repc, s.repv], [], 1, v⟩
    else
      if 128 ≤ (s.mix ++ List.replicate s.repc s.repv).length then
        ⟨s.out ++ encMix (s.mix ++ List.replicate s.repc s.repv),
         (s.mix ++ List.replicate s.repc s.repv).drop 128, 1, v⟩
      else
        ⟨s.out, s.mix ++ List.replicate s.repc s.repv, 1, v⟩

/-- One full iteration of the encoding loop of `RLE_store_line`. -/
def rleStep (s : RleSt) (v : Nat) : RleSt := rleMain (rleCap s v) v

/-- The tail handling after the loop of `RLE_store_line` ("Handle final
bytes"): a final repeat run if longer than 2, then up to two final mixed
runs. -/
def rleFinish (s : RleSt) : List Nat :=
  if 2 < s.repc then
    s.out ++ [encRep s.repc, s.repv]
  else
    if 0 < (s.mix ++ List.replicate s.repc s.repv).length then
      if 0 < ((s.mix ++ List.replicate s.repc s.repv).drop 128).length then
        s.out ++ encMix (s.mix ++ List.replicate s.repc s.repv)
              ++ encMix ((s.mix ++ List.replicate s.repc s.repv).drop 128)
      else
        s.out ++ encMix (s.mix ++ List.replicate s.repc s.repv)
    else
      s.out

/-- The run-length encoder of `RLE_store_line`: the packet body written
between the 3 metadata bytes and `rle_next`.  The C loop initializes
`rep_val = next_val = *next` from the first buffer byte. -/
def rle_encode (buf : List Nat) : List Nat :=
  match buf with
  | [] => []
  | b :: _ => rleFinish (buf.foldl rleStep ⟨[], [], 0, b⟩)

/-- Well-formed RLE packet bodies and their decompressed payload: a
concatenation of mixed-bytes runs (count byte `len-1`, then `len ≤ 128`
literals) and repeated-byte runs (count byte `1-r` two's complement,
`2 ≤ r ≤ 129`, then the repeated value). -/
inductive Runs : List Nat → List Nat → Prop
  | nil : Runs [] []
  | mixRun (bs rest out : List Nat) : bs ≠ [] → bs.length ≤ 128 →
      Runs rest out → Runs ((bs.length - 1) :: (bs ++ rest)) (bs ++ out)
  | repRun (r v : Nat) (rest out : List Nat) : 2 ≤ r → r ≤ 129 →
      Runs rest out → Runs (encRep r :: v :: rest) (List.replicate r v ++ out)

/-- TIFF (packbits) decompression loop of the decoder's
`explain_raster_line`: reads runs until the byte budget `b` (the declared
command length) is exhausted; fails (`none`, modelling `die ()`) when a run
header crosses the declared length or the input is truncated.  Returns the
decompressed payload and the unconsumed input. -/
def decompressTiff : Nat → List Nat → Option (List Nat × List Nat)
  | 0, input => some ([], input)
  | _ + 1, [] => none
  | b + 1, c :: input =>
    if 128 ≤ c then
      if b = 0 ∨ input = [] then none
      else
        (decompressTiff (b - 1) input.tail).map
          (fun pr => (List.replicate (257 - c) (input.headD 0) ++ pr.1, pr.2))
    else
      if b < c + 1 then none
      else if input.length < c + 1 then none
      else
        (decompressTiff (b - (c + 1)) (input.drop (c + 1))).map
          (fun pr => (input.take (c + 1) ++ pr.1, pr.2))
  termination_by b _input => b
  decreasing_by
  all_goals omega

/-- Invariant of the `RLE_store_line` loop relating the processed input
prefix `p` to the loop state: some prefix `eb` of `p` has been emitted as
well-formed runs, the rest is pending in the mixed/repeat windows, and the
emitted length satisfies the documented size bound (with one spare byte
owed once a repeat window of length at least 3 is pending). -/
def RleInv (p : List Nat) (s : RleSt) : Prop :=
  ∃ eb : List Nat,
    Runs s.out eb ∧
    p = eb ++ s.mix ++ List.replicate s.repc s.repv ∧
    s.mix.length ≤ 127 ∧
    s.repc ≤ 129 ∧
    (3 ≤ s.repc → s.mix = []) ∧
    s.out.length ≤ eb.length + eb.length / 128 + (if 3 ≤ s.repc then 1 else 0)

/-- Inner loop of `generate_emit_line` for `do_mirror && shift`: left-to-right,
shift-and-carry through `box`, each emitted byte masked with `& 0xff` and
XORed.  Returns (emitted bytes, final box, accumulated nonzero). -/
def emitMirrorShiftLoop (shift xormask : Nat) (ins : List Nat) :
    List Nat × Nat × Nat :=
  ins.foldl
    (fun acc d =>
      let box := acc.2.1 ||| (d <<< shift)
      (acc.1 ++ [(box &&& 255) ^^^ xormask], box >>> 8, acc.2.2 ||| d))
    ([], 0, 0)

/-- Inner loop of `generate_emit_line` for `!do_mirror && shift`
(`for (i = buflen - 2; i >= 0; i--)`): right-to-left with shifted carry,
each emitted byte run through the `mirror` table and XORed. -/
def emitRevLoop (shift xormask : Nat) (ins : List Nat) (box0 nz0 : Nat) :
    List Nat × Nat × Nat :=
  ins.foldl
    (fun acc d =>
      let box := acc.2.1 ||| (d <<< shift)
      (acc.1 ++ [byteReverse (box &&& 255) ^^^ xormask], box >>> 8, acc.2.2 ||| d))
    ([], box0, nz0)

/-- `generate_emit_line` from rastertoptch.  `in_buffer` is the first
`buflen` bytes of the CUPS row (the caller passes the truncated prefix).
The output models the `bytes_per_line`-byte device row: `right_padding_bytes`
bytes of `xormask`, then the pixel data as emitted by the four branches
(mirror x shift), then `xormask` fill up to `bytes_per_line` (the two
`memset` calls).  The second component models the `nonzero != 0` return.
Note that in the `do_mirror && shift` branch the final carry byte is
emitted as `box & 0xff` without the XOR mask, exactly as in the source. -/
def generate_emit_line (in_buffer : List Nat)
    (bytes_per_line right_padding_bytes : Nat) (shift : Int) (do_mirror : Bool)
    (xormask : Nat) : List Nat × Bool :=
  let data :=
    if do_mirror then
      if shift ≠ 0 then
        let st := emitMirrorShiftLoop shift.toNat xormask in_buffer
        (st.1 ++ [st.2.1 &&& 255], st.2.2)
      else
        (in_buffer.map (fun d => d ^^^ xormask), in_buffer.foldl (· ||| ·) 0)
    else
      if shift ≠ 0 then
        match in_buffer.reverse with
        | [] => ([], 0)
        | lastb :: revRest =>
          if shift < 0 then
            let box := lastb >>> (-shift).toNat
            let st := emitRevLoop (shift + 8).toNat xormask revRest box box
            (st.1 ++ [byteReverse (st.2.1 &&& 255) ^^^ xormask], st.2.2)
          else
            let box := lastb <<< shift.toNat
            let st := emitRevLoop shift.toNat xormask revRest (box >>> 8) box
            ((byteReverse (box &&& 255) ^^^ xormask) :: st.1
               ++ [byteReverse (st.2.1 &&& 255) ^^^ xormask], st.2.2)
      else
        (in_buffer.reverse.map (fun d => byteReverse d ^^^ xormask),
         in_buffer.foldl (· ||| ·) 0)
  (List.replicate right_padding_bytes xormask ++ data.1
     ++ List.replicate (bytes_per_line - (right_padding_bytes + data.1.length)) xormask,
   data.2 != 0)

/-- Pixel transfer mode (`xfer_t`). -/
inductive Xfer
  | ULP
  | RLE
  | BIP
deriving DecidableEq, Repr

/-- Media type (`media_t`). -/
inductive Media
  | TAPE
  | LABELS
deriving DecidableEq, Repr

/-- Job options (`job_options_t`).  Only the fields the encoder reads are
modelled; `align`, `min_margin` and `margin` enter the raster path through
the precomputed pixel quantities in `page_params` (they are combined with
floating-point page geometry before any byte is emitted), and the mutable
`page` / `last_page` fields are passed explicitly to the functions that
read them. -/
structure job_options where
  pixel_xfer : Xfer
  print_quality_high : Bool
  auto_cut : Bool
  half_cut : Bool
  cut_mark : Bool
  cut_label : Int
  chain_printing : Bool
  mirror_print : Bool
  pt_series : Bool
  ql_series : Bool
  bytes_per_line : Nat
  media : Media
  software_mirror : Bool
  print_density : Nat
  legacy_xfer_mode : Int
  xfer_mode : Int
  label_preamble : Bool
  label_recoyery : Bool
  last_page_flag : Bool
  legacy_hires : Bool
  concat_pages : Bool
  status_notification : Int
deriving DecidableEq, Repr

/-- Per-page data (`cups_page_header2_t` plus the integer pixel quantities
the encoder derives from its floating-point fields).  `rows` are the raster
rows read by `cupsRasterReadPixels` (`cupsHeight` of them, each
`cupsBytesPerLine` bytes); the `...Px`/`...Mm` fields stand for the
`lrint`-rounded values computed from `cupsPageSize`, `cupsImagingBBox`,
`HWResolution` and the margin options, and `rightPaddingBits` for the
alignment computation of `emit_raster_lines` (both alignment branches
produce a non-negative value). -/
structure page_params where
  rows : List (List Nat)
  cupsBytesPerLine : Nat
  cupsWidth : Nat
  negative : Bool
  hwResX : Nat
  hwResY : Nat
  tapeWidthMm : Nat
  tapeLengthMm : Nat
  rightPaddingBits : Nat
  bboxTopZero : Bool
  topDistancePx : Nat
  imageHeightPx : Nat
  minFeedPx : Nat
  marginFeedPx : Nat
  botConcatPx : Nat
deriving DecidableEq, Repr

/-- A packet stored in the RLE arena: either an encoded row with its tag
metadata ('g'/'G' plus 16-bit length in series byte order, written by
`RLE_store_line` / `RLE_store_empty_lines`), or the single 'Z' empty-row
byte. -/
inductive Packet
  | enc (ql : Bool) (body : List Nat)
  | z
deriving DecidableEq, Repr

/-- Arena bytes of one packet: `'g' hi lo body` for ql-series,
`'G' lo hi body` otherwise, or the single byte `'Z'`. -/
def Packet.bytes : Packet → List Nat
  | .enc ql body =>
    if ql then
      103 :: ((body.length >>> 8) &&& 255) :: (body.length &&& 255) :: body
    else
      71 :: (body.length &&& 255) :: ((body.length >>> 8) &&& 255) :: body
  | .z => [90]

/-- The body of a packet (empty for 'Z'). -/
def Packet.body : Packet → List Nat
  | .enc _ b => b
  | .z => []

/-- RLE arena state: the stored packets (`rle_buffer` contents between
`rle_buffer` and `rle_buffer_next`), `lines_waiting`, and the allocated
capacity `rle_alloced` in bytes. -/
structure BufSt where
  packets : List Packet
  lines : Nat
  cap : Nat
deriving DecidableEq, Repr

/-- Total arena bytes used (`rle_buffer_next - rle_buffer`). -/
def arenaLen (ps : List Packet) : Nat :=
  (ps.map (fun p => p.bytes.length)).sum

/-- The emitted command stream, at the granularity at which the source
emits byte groups. -/
inductive Cmd
  | zeros (n : Nat)
  | initCmd
  | legacyXfer (v : Nat)
  | xferCmd (v : Nat)
  | statusNotifCmd (v : Nat)
  | densityCmd (v : Nat)
  | legacyHiresCmd (b0 b1 b2 b3 b4 : Nat)
  | variousModeCmd (v : Nat)
  | advancedModeCmd (v : Nat)
  | cutEveryCmd (v : Nat)
  | marginCmd (feed : Nat)
  | printInfoCmd (valid kind w l lines pg : Nat)
  | selectComprCmd (v : Nat)
  | rasterCmd (p : Packet)
  | bipHeaderCmd (n : Nat)
  | blobCmd (b : List Nat)
  | formfeedCmd
  | ejectCmd
deriving DecidableEq, Repr

/-- The byte sequence of each command, with the `putchar` truncations of
the source (`& 0xff` masks on multi-byte fields). -/
def Cmd.bytes : Cmd → List Nat
  | .zeros n => List.replicate n 0
  | .initCmd => [27, 64]
  | .legacyXfer v => [27, 105, 82, v % 256]
  | .xferCmd v => [27, 105, 97, v % 256]
  | .statusNotifCmd v => [27, 105, 33, v % 256]
  | .densityCmd v => [27, 105, 68, v % 256]
  | .legacyHiresCmd b0 b1 b2 b3 b4 => [27, 105, 99, b0, b1, b2, b3, b4]
  | .variousModeCmd v => [27, 105, 77, v % 256]
  | .advancedModeCmd v => [27, 105, 75, v % 256]
  | .cutEveryCmd v => [27, 105, 65, v % 256]
  | .marginCmd f => [27, 105, 100, f &&& 255, (f >>> 8) &&& 255]
  | .printInfoCmd valid kind w l lines pg =>
    [27, 105, 122, valid, kind, w &&& 255, l, lines &&& 255, (lines >>> 8) &&& 255,
     (lines >>> 16) &&& 255, (lines >>> 24) &&& 255, pg, 0]
  | .selectComprCmd v => [77, v]
  | .rasterCmd p => p.bytes
  | .bipHeaderCmd n => [27, 42, 39, n &&& 255, (n >>> 8) &&& 255]
  | .blobCmd b => b
  | .formfeedCmd => [12]
  | .ejectCmd => [26]

/-- `emit_quality_rollfed_size`: builds the `ESC i z` print-information
command with the given line count (`image_height_px` argument, which
`flush_rle_buffer` passes as `lines_waiting`). -/
def emit_quality_rollfed_size (o : job_options) (pp : page_params)
    (page : Nat) (lastPage : Bool) (image_height_px : Nat) : Cmd :=
  let valid1 := if o.label_recoyery then 4 ||| 128 else 4
  let tape_width_mm := min pp.tapeWidthMm 255
  let vmt :=
    if o.ql_series then
      let v1 := if o.print_quality_high then valid1 ||| 64 else valid1
      let v2 := v1 ||| 2
      match o.media with
      | .TAPE => (v2, 10, 0)
      | .LABELS => (v2 ||| 8, 11, min pp.tapeLengthMm 255)
    else (valid1, 0, 0)
  let vm2 :=
    if o.pt_series ∧ pp.hwResX = 360 ∧ (pp.hwResY = 180 ∨ pp.hwResY = 720) then
      (vmt.1 ||| 2, 9)
    else (vmt.1, vmt.2.1)
  let which_page := if o.last_page_flag ∧ lastPage then 2 else if 1 < page then 1 else 0
  .printInfoCmd vm2.1 vm2.2 tape_width_mm vmt.2.2 image_height_px which_page

/-- RLE expansion loop of `flush_rle_buffer`'s ULP/BIP branch: walks
`linelen` bytes of RLE data emitting the decoded bytes (no length
validation; the loop simply stops once the count is exhausted). -/
def rleExpand : Nat → List Nat → List Nat
  | 0, _ => []
  | _ + 1, [] => []
  | f + 1, c :: rest =>
    if 128 ≤ c then
      List.replicate (257 - c) (rest.headD 0) ++ rleExpand (f - 1) rest.tail
    else
      rest.take (c + 1) ++ rleExpand (f - (c + 1)) (rest.drop (c + 1))
  termination_by f _ => f
  decreasing_by
  all_goals omega

/-- One packet expanded for uncompressed-line printing: fixed `g 0 bpl`
header, decoded bytes, zero padding up to `bytes_per_line`. -/
def ulpExpand (bpl : Nat) (p : Packet) : List Nat :=
  let ex := rleExpand p.body.length p.body
  103 :: 0 :: (bpl % 256) :: (ex ++ List.replicate (bpl - ex.length) 0)

/-- One packet expanded for bit-image printing: as ULP but without the
per-line header. -/
def bipExpand (bpl : Nat) (p : Packet) : List Nat :=
  let ex := rleExpand p.body.length p.body
  ex ++ List.replicate (bpl - ex.length) 0

/-- `flush_rle_buffer`: nothing if no lines are waiting; otherwise the
optional `ESC i z` preamble (with `lines_waiting` as the line count),
then the arena — verbatim packets for RLE, expanded per packet for
ULP/BIP — and the reset state (`rle_buffer_next = rle_buffer`,
`lines_waiting = 0`). -/
def flush_rle_buffer (o : job_options) (pp : page_params) (page : Nat)
    (lastPage : Bool) (b : BufSt) : List Cmd × BufSt :=
  if b.lines = 0 then ([], b)
  else
    let pre :=
      if o.label_preamble then [emit_quality_rollfed_size o pp page lastPage b.lines]
      else []
    let body :=
      match o.pixel_xfer with
      | .RLE => b.packets.map Cmd.rasterCmd
      | .ULP => b.packets.map (fun p => Cmd.blobCmd (ulpExpand o.bytes_per_line p))
      | .BIP => b.packets.map (fun p => Cmd.blobCmd (bipExpand o.bytes_per_line p))
    (pre ++ body, { b with packets := [], lines := 0 })

/-- The pure size arithmetic of `ensure_rle_buf_space` on
(`rle_buffer_next - rle_buffer`, `rle_alloced`): grow to
`2*capacity + 0x4000` when that stays under the 1,000,000-byte cap
(`realloc` modelled as succeeding below the cap), otherwise flush
(`len` drops to 0) and fail (`exit (-1)`, the `Except.error`) exactly when
the request still does not fit.  Returns the new `(len, capacity)`. -/
def ensure_rle_buf_space (len cap bytes : Nat) : Except Unit (Nat × Nat) :=
  if cap < len + bytes then
    if 2 * cap + 16384 ≤ 1000000 then Except.ok (len, 2 * cap + 16384)
    else if cap < bytes then Except.error ()
    else Except.ok (0, cap)
  else Except.ok (len, cap)

/-- `ensure_rle_buf_space` as used in the emission pipeline: same
arithmetic, with the flush branch emitting the flushed commands.  The
`exit (-1)` branch cannot be reached for any request the encoder issues
(at most `4 + 255 + 255/128 + 1` bytes, far below the post-growth capacity;
see `ensure_exit_unreachable`), and is modelled as continuing after the
flush. -/
def ensureBuf (o : job_options) (pp : page_params) (page : Nat)
    (lastPage : Bool) (b : BufSt) (bytes : Nat) : List Cmd × BufSt :=
  if arenaLen b.packets + bytes > b.cap then
    let newc := 2 * b.cap + 16384
    if newc ≤ 1000000 then ([], { b with cap := newc })
    else flush_rle_buffer o pp page lastPage b
  else ([], b)

/-- The packet `RLE_store_line` stores for row `buf`: 'Z' when the OR of
all row bytes is zero, otherwise the tagged RLE body. -/
def RLE_store_line_packet (o : job_options) (buf : List Nat) : Packet :=
  if buf.foldl (· ||| ·) 0 ≠ 0 then .enc o.ql_series (rle_encode buf) else .z

/-- `RLE_store_line`: reserve space, append the packet, bump
`lines_waiting`, and flush if the `max_lines_waiting` threshold
(`INT_MAX`) is reached. -/
def RLE_store_line (o : job_options) (pp : page_params) (page : Nat)
    (lastPage : Bool) (b : BufSt) (buf : List Nat) : List Cmd × BufSt :=
  let eb := ensureBuf o pp page lastPage b (4 + buf.length + buf.length / 128)
  let b2 : BufSt :=
    { eb.2 with packets := eb.2.packets ++ [RLE_store_line_packet o buf],
                lines := eb.2.lines + 1 }
  if 2147483647 ≤ b2.lines then
    let fl := flush_rle_buffer o pp page lastPage b2
    (eb.1 ++ fl.1, fl.2)
  else (eb.1, b2)

/-- Body of one synthesized empty line under a nonzero XOR mask:
`bytes_per_line` repeats of the mask, split into runs of at most 129. -/
def emptyLineBody (mask : Nat) : Nat → List Nat
  | 0 => []
  | len + 1 =>
    ((257 - min (len + 1) 129) % 256) :: mask ::
      emptyLineBody mask (len + 1 - min (len + 1) 129)
  termination_by len => len
  decreasing_by
  omega

/-- The packet `RLE_store_empty_lines` stores for each empty line: a
tagged full-mask RLE row when the XOR mask is nonzero (the device's 'Z'
shortcut does not invert), a 'Z' byte otherwise. -/
def RLE_store_empty_packet (o : job_options) (xormask : Nat) : Packet :=
  if xormask ≠ 0 then .enc o.ql_series (emptyLineBody xormask o.bytes_per_line)
  else .z

/-- `RLE_store_empty_lines`: `lines_waiting` is incremented *before* the
space reservation (as in the source); with a nonzero mask each line is a
full tagged RLE row of mask bytes, otherwise a 'Z' byte per line. -/
def RLE_store_empty_lines (o : job_options) (pp : page_params) (page : Nat)
    (lastPage : Bool) (b : BufSt) (n : Nat) (xormask : Nat) : List Cmd × BufSt :=
  let b0 : BufSt := { b with lines := b.lines + n }
  let eb :=
    if xormask ≠ 0 then
      ensureBuf o pp page lastPage b0 (n * ((o.bytes_per_line + 127) / 128))
    else
      ensureBuf o pp page lastPage b0 n
  (eb.1, { eb.2 with packets :=
    eb.2.packets ++ List.replicate n (RLE_store_empty_packet o xormask) })

/-- `emit_job_cmds`: 350 recovery zeros, `ESC @`, then the optional
transfer-mode and status-notification commands. -/
def emit_job_cmds (o : job_options) : List Cmd :=
  [Cmd.zeros 350, Cmd.initCmd]
  ++ (if 0 ≤ o.legacy_xfer_mode ∧ o.legacy_xfer_mode < 256 then
        [Cmd.legacyXfer o.legacy_xfer_mode.toNat] else [])
  ++ (if 0 ≤ o.xfer_mode ∧ o.xfer_mode < 256 then
        [Cmd.xferCmd o.xfer_mode.toNat] else [])
  ++ (if o.status_notification ≠ -1 then
        [Cmd.statusNotifCmd o.status_notification.toNat] else [])

/-- `emit_page_cmds`: density (1..5 only), optional legacy hires geometry,
various mode, advanced mode, optional cut-every, margin, compression
select (RLE) or BIP header. -/
def emit_page_cmds (o : job_options) (pp : page_params) : List Cmd :=
  (if 1 ≤ o.print_density ∧ o.print_density ≤ 5 then [Cmd.densityCmd o.print_density]
   else [])
  ++ (if o.legacy_hires ∧ pp.hwResX = 360 ∧ (pp.hwResY = 360 ∨ pp.hwResY = 720) then
        if pp.hwResY = 360 then
          [Cmd.legacyHiresCmd 132 0 (min pp.tapeWidthMm 255) 0 0]
        else
          [Cmd.legacyHiresCmd 134 9 (min pp.tapeWidthMm 255) 0 1]
      else [])
  ++ [Cmd.variousModeCmd ((if o.auto_cut ∨ o.cut_mark then 64 else 0)
        + (if o.mirror_print ∧ ¬ o.software_mirror then 128 else 0))]
  ++ [Cmd.advancedModeCmd
        ((if ¬ o.legacy_hires ∧ pp.hwResX = 360 ∧ pp.hwResY = 180 then 1 else 0)
         + (if ¬ o.legacy_hires ∧ ((pp.hwResX = 360 ∧ pp.hwResY = 720)
              ∨ (pp.hwResX = 300 ∧ pp.hwResY = 600)) then 64 else 0)
         + (if o.half_cut then 4 else 0)
         + (if ¬ o.chain_printing then 8 else 0))]
  ++ (if o.cut_label ≠ -1 then [Cmd.cutEveryCmd o.cut_label.toNat] else [])
  ++ [Cmd.marginCmd (if o.media ≠ Media.LABELS then pp.marginFeedPx else 0)]
  ++ (if o.pixel_xfer = Xfer.RLE then [Cmd.selectComprCmd 2] else [])
  ++ (if o.pixel_xfer = Xfer.BIP then [Cmd.bipHeaderCmd pp.imageHeightPx] else [])

/-- Static per-page context for the row loop of `emit_raster_lines`. -/
structure row_ctx where
  o : job_options
  pp : page_params
  page : Nat
  topSkip : Nat
  botSkip : Nat
  cupsHeight : Nat
  buflen : Nat
  rpb : Nat
  shift : Int
  doMirror : Bool
  xormask : Nat
deriving Repr

/-- The row loop of `emit_raster_lines` (`for (y = 0; y < cupsHeight; ...)`):
skipped rows are consumed, empty rows accumulate in `empty_lines`, a
nonempty row first materializes the pending empty lines, then stores its
transformed bytes. -/
def emit_rows : row_ctx → Nat → List (List Nat) → BufSt × Nat → List Cmd × (BufSt × Nat)
  | _, _, [], st => ([], st)
  | ctx, y, row :: rest, (b, el) =>
    if y < ctx.topSkip ∨ y + ctx.botSkip ≥ ctx.cupsHeight then
      emit_rows ctx (y + 1) rest (b, el)
    else
      let ge := generate_emit_line (row.take ctx.buflen) ctx.o.bytes_per_line ctx.rpb
        ctx.shift ctx.doMirror ctx.xormask
      if ge.2 then
        let s1 := if el ≠ 0 then
            RLE_store_empty_lines ctx.o ctx.pp ctx.page false b el ctx.xormask
          else ([], b)
        let s2 := RLE_store_line ctx.o ctx.pp ctx.page false s1.2 ge.1
        let s3 := emit_rows ctx (y + 1) rest (s2.2, 0)
        (s1.1 ++ s2.1 ++ s3.1, s3.2)
      else
        emit_rows ctx (y + 1) rest (b, el + 1)

/-- `emit_raster_lines`: computes the transform geometry (truncation,
padding, shift), the synthetic top/bottom empty-line counts with the
min-margin skip adjustment, then runs the row loop; afterwards the bottom
empty lines are carried into `empty_lines` unless pages are concatenated.
During this call `job_options->last_page` is still false (the next header
has not been read yet), so pressure flushes see `lastPage = false`. -/
def emit_raster_lines (o : job_options) (pp : page_params) (page : Nat)
    (st : BufSt × Nat) : List Cmd × (BufSt × Nat) :=
  let xormask : Nat := if pp.negative then 255 else 0
  let do_mirror := o.software_mirror ∧ o.mirror_print
  let buflen0 := min (min pp.cupsBytesPerLine 255) o.bytes_per_line
  let right_padding_bytes := pp.rightPaddingBits / 8
  let shift0 : Int := (pp.rightPaddingBits % 8 : Nat)
  let shift : Int :=
    if ¬ do_mirror then shift0 - ((8 - pp.cupsWidth % 8) % 8 : Nat) else shift0
  let shift_positive : Nat := if 0 < shift then 1 else 0
  let br :=
    if o.bytes_per_line < buflen0 + right_padding_bytes + shift_positive then
      let rpb' :=
        if o.bytes_per_line < right_padding_bytes + shift_positive then
          o.bytes_per_line - shift_positive
        else right_padding_bytes
      (o.bytes_per_line - rpb' - shift_positive, rpb')
    else (buflen0, right_padding_bytes)
  let cupsHeight := pp.rows.length
  let top0 : Nat :=
    if ¬ pp.bboxTopZero ∧ (¬ o.concat_pages ∨ page = 1) then pp.topDistancePx else 0
  let bot0 : Nat :=
    if top0 + cupsHeight ≤ pp.imageHeightPx then pp.imageHeightPx - top0 - cupsHeight
    else 0
  let min_feed := pp.minFeedPx
  let ts :=
    if o.media = Media.LABELS ∧ top0 ≠ 0 then (0, 0)
    else if min_feed ≤ top0 then (top0 - min_feed, 0)
    else (0, min_feed - top0)
  let bs :=
    if o.media = Media.LABELS ∧ bot0 ≠ 0 then (0, 0)
    else if min_feed ≤ bot0 then (bot0 - min_feed, 0)
    else (0, min_feed - bot0)
  let ctx : row_ctx :=
    { o := o, pp := pp, page := page, topSkip := ts.2, botSkip := bs.2,
      cupsHeight := cupsHeight, buflen := br.1, rpb := br.2, shift := shift,
      doMirror := do_mirror, xormask := xormask }
  let r := emit_rows ctx 0 pp.rows (st.1, st.2 + ts.1)
  let el2 :=
    if bs.1 ≠ 0 ∧ ¬ o.concat_pages then r.2.2 + bs.1 else r.2.2
  (r.1, (r.2.1, el2))

/-- The page loop of `process_rasterdata`: job and page commands are
emitted only when `page == 1`; at each page end the pending empty lines
are stored and the buffer flushed (except between concatenated pages),
with `0x0c` separating non-final pages and `0x1a` ending the job. -/
def process_pages (o : job_options) : Nat → List page_params → BufSt × Nat → List Cmd
  | _, [], _ => []
  | page, pp :: rest, (b, el) =>
    let pre := if page = 1 then emit_job_cmds o ++ emit_page_cmds o pp else []
    let r1 := emit_raster_lines o pp page (b, el)
    let lastPage := rest.isEmpty
    let xormask : Nat := if pp.negative then 255 else 0
    if ¬ lastPage then
      if ¬ o.concat_pages then
        let s2 := RLE_store_empty_lines o pp page lastPage r1.2.1 r1.2.2 xormask
        let s3 := flush_rle_buffer o pp page lastPage s2.2
        pre ++ r1.1 ++ s2.1 ++ s3.1 ++ [Cmd.formfeedCmd]
          ++ process_pages o (page + 1) rest (s3.2, 0)
      else
        pre ++ r1.1 ++ process_pages o (page + 1) rest (r1.2.1, r1.2.2)
    else
      if ¬ o.concat_pages then
        let s2 := RLE_store_empty_lines o pp page lastPage r1.2.1 r1.2.2 xormask
        let s3 := flush_rle_buffer o pp page lastPage s2.2
        pre ++ r1.1 ++ s2.1 ++ s3.1 ++ [Cmd.ejectCmd]
      else
        let s2 := RLE_store_empty_lines o pp page lastPage r1.2.1 pp.botConcatPx xormask
        let s3 := flush_rle_buffer o pp page lastPage s2.2
        pre ++ r1.1 ++ s2.1 ++ s3.1 ++ [Cmd.ejectCmd]

/-- `process_rasterdata`: run the page loop from page 1 with an empty
arena (null `rle_buffer`, `rle_alloced = 0`, no pending empty lines).
A job with no pages emits nothing. -/
def process_rasterdata (o : job_options) (pages : List page_params) : List Cmd :=
  process_pages o 1 pages (⟨[], 0, 0⟩, 0)

/-- All bytes of a command stream. -/
def cmdStreamBytes (cmds : List Cmd) : List Nat :=
  cmds.flatMap Cmd.bytes

/-- Decoder compression mode (`enum compression_mode`). -/
inductive CMode
  | unspec
  | uncomp
  | tiff
deriving DecidableEq, Repr

/-- `check_compression_mode`: unspecified defaults to uncompressed
(with an informational, non-error message). -/
def checkCompression : CMode → CMode
  | .unspec => .uncomp
  | m => m

/-- Decoder state across commands: the selected compression mode and the
`initialized` flag. -/
structure DecSt where
  compression : CMode
  initialized : Bool
deriving DecidableEq, Repr

/-- The typed events the decoder's `explain` loop produces.  `initMissing`,
`eojMissing`, a `true` bad-flag, and `fatalEvt` (which aborts parsing,
modelling `die ()` / `exit (1)`) are the error indications; everything else
is an accepted command. -/
inductive Event
  | reset (n : Nat)
  | initMissing
  | initEvt
  | statusNotifEvt (v : Nat)
  | statusRequestEvt
  | switchModeEvt (v : Nat) (legacy : Bool) (bad : Bool)
  | printInfoEvt (d : List Nat) (lines : Nat)
  | variousModeEvt (v : Nat)
  | advancedModeEvt (v : Nat)
  | marginEvt (u : Nat)
  | cutEveryEvt (v : Nat)
  | legacyHiresEvt (d : List Nat)
  | undocEvt (n : Nat)
  | selectComprEvt (v : Nat) (bad : Bool)
  | rasterLineEvt (payload : List Nat)
  | rasterRawEvt (b : List Nat)
  | zeroRasterEvt (bad : Bool)
  | printEvt
  | endOfJobEvt
  | eojMissing
  | fatalEvt
deriving DecidableEq, Repr

/-- `initMissing` check at the top of the decoder loop: any command other
than `ESC` (and any `ESC` command other than `ESC @`) before initialization
produces an error message and sets the flag. -/
def preInit (st : DecSt) : List Event :=
  if st.initialized then [] else [Event.initMissing]

/-- One raster-line command: the events produced, and — unless parsing
stops (`die ()` or `exit (1)`) — the decoder state for the next command
and the number of input bytes consumed.  The command stack
(`COMMAND_STACK_SIZE 128`) is reset by `print_noisy_command` right before
the body, and `explain_raster_line` then reads every body byte through
`get ()`, which pushes it; the 129th push hits
`check_command_stack_overflow` and exits with an error, so any declared
body length above 128 aborts (a shorter stream aborts earlier in `get`
with "More data expected" — either way a fatal stop). -/
def explainRaster (st : DecSt) (u : Nat) (r : List Nat) :
    List Event × Option (DecSt × Nat) :=
  if 128 < u then ([Event.fatalEvt], none)
  else
    let comp := checkCompression st.compression
    if comp = CMode.tiff then
      match decompressTiff u r with
      | some pr => ([Event.rasterLineEvt pr.1], some (⟨comp, true⟩, u))
      | none => ([Event.fatalEvt], none)
    else
      if r.length < u then ([Event.fatalEvt], none)
      else ([Event.rasterRawEvt (r.take u)], some (⟨comp, true⟩, u))

/-- The `ESC i` subcommand dispatch of the decoder ('!', 'S', 'R', 'a',
'z', 'M', 'K', 'd', 'U', 'A', 'k', 'c'; anything else, or a truncated
command, is fatal).  The consumed count is relative to the bytes after
`ESC i`. -/
def explainEscI (st : DecSt) : List Nat → List Event × Option (DecSt × Nat)
  | 33 :: v :: _ => ([Event.statusNotifEvt v], some (⟨st.compression, true⟩, 2))
  | 83 :: _ => ([Event.statusRequestEvt], some (⟨st.compression, true⟩, 1))
  | 82 :: v :: _ =>
    ([Event.switchModeEvt v true (!(v == 0 || v == 1 || v == 3))],
     some (⟨st.compression, true⟩, 2))
  | 97 :: v :: _ =>
    ([Event.switchModeEvt v false (!(v == 0 || v == 1 || v == 3))],
     some (⟨st.compression, true⟩, 2))
  | 122 :: r =>
    if 10 ≤ r.length then
      ([Event.printInfoEvt (r.take 10)
          (r.getD 4 0 + (r.getD 5 0 <<< 8) + (r.getD 6 0 <<< 16) + (r.getD 7 0 <<< 24))],
       some (⟨st.compression, true⟩, 11))
    else ([Event.fatalEvt], none)
  | 77 :: v :: _ => ([Event.variousModeEvt v], some (⟨st.compression, true⟩, 2))
  | 75 :: v :: _ => ([Event.advancedModeEvt v], some (⟨st.compression, true⟩, 2))
  | 100 :: a :: b2 :: _ =>
    ([Event.marginEvt (a + (b2 <<< 8))], some (⟨st.compression, true⟩, 3))
  | 85 :: r =>
    if 15 ≤ r.length then ([Event.undocEvt 15], some (⟨st.compression, true⟩, 16))
    else ([Event.fatalEvt], none)
  | 65 :: v :: _ => ([Event.cutEveryEvt v], some (⟨st.compression, true⟩, 2))
  | 107 :: r =>
    if 3 ≤ r.length then ([Event.undocEvt 3], some (⟨st.compression, true⟩, 4))
    else ([Event.fatalEvt], none)
  | 99 :: r =>
    if 5 ≤ r.length then
      ([Event.legacyHiresEvt (r.take 5)], some (⟨st.compression, true⟩, 6))
    else ([Event.fatalEvt], none)
  | _ => ([Event.fatalEvt], none)

/-- The `ESC` dispatch of the decoder: `ESC @` initializes; `ESC i` goes to
the subcommand table (with the missing-initialization check first); EOF
right after `ESC` is fatal (`get ()` finds the `ESC` byte on the command
stack and dies with "More data expected"); anything else is fatal.
Consumption is relative to the bytes after `ESC`. -/
def explainEsc (st : DecSt) : List Nat → List Event × Option (DecSt × Nat)
  | [] => ([Event.fatalEvt], none)
  | 64 :: _ => ([Event.initEvt], some (⟨st.compression, true⟩, 1))
  | 105 :: r2 =>
    match explainEscI st r2 with
    | (evs, none) => (preInit st ++ evs, none)
    | (evs, some (st2, k)) => (preInit st ++ evs, some (st2, k + 1))
  | _ :: _ => (preInit st ++ [Event.fatalEvt], none)

/-- One iteration of the decoder's `explain` loop (non-recursive): parse
one command at the head of the input, producing its events and, when
parsing continues, the new state and the positive number of bytes
consumed.  A zero run that reaches the end of the input makes the C
`break` before clearing `initialized`, so the final missing-end-of-job
check still fires; only a zero run followed by more input clears the
flag. -/
def explainStep (st : DecSt) : List Nat → List Event × Option (DecSt × Nat)
  | [] => ([], none)
  | 0 :: rest =>
    let zs := (rest.takeWhile (fun x => x = 0)).length
    if zs = rest.length then
      (Event.reset (zs + 1)
        :: (if st.initialized then [Event.eojMissing] else []), none)
    else ([Event.reset (zs + 1)], some (⟨st.compression, false⟩, zs + 1))
  | 27 :: rest =>
    match explainEsc st rest with
    | (evs, none) => (evs, none)
    | (evs, some (st2, k)) => (evs, some (st2, k + 1))
  | 77 :: v :: _ =>
    (preInit st ++ [Event.selectComprEvt v (!(v == 0 || v == 2))],
     some (⟨(if v = 0 then CMode.uncomp else if v = 2 then CMode.tiff
             else st.compression), true⟩, 2))
  | [77] => (preInit st ++ [Event.fatalEvt], none)
  | 103 :: d0 :: d1 :: r =>
    if d0 ≠ 0 then (preInit st ++ [Event.fatalEvt], none)
    else
      match explainRaster st d1 r with
      | (evs, none) => (preInit st ++ evs, none)
      | (evs, some (st2, k)) => (preInit st ++ evs, some (st2, k + 3))
  | 103 :: _ => (preInit st ++ [Event.fatalEvt], none)
  | 71 :: d0 :: d1 :: r =>
    (match explainRaster st (d0 + (d1 <<< 8)) r with
     | (evs, none) => (preInit st ++ evs, none)
     | (evs, some (st2, k)) => (preInit st ++ evs, some (st2, k + 3)))
  | 71 :: _ => (preInit st ++ [Event.fatalEvt], none)
  | 90 :: _ =>
    (preInit st ++ [Event.zeroRasterEvt (checkCompression st.compression ≠ CMode.tiff)],
     some (⟨checkCompression st.compression, true⟩, 1))
  | 12 :: _ => (preInit st ++ [Event.printEvt], some (⟨st.compression, true⟩, 1))
  | 26 :: _ => (preInit st ++ [Event.endOfJobEvt], some (⟨st.compression, false⟩, 1))
  | _ :: _ => (preInit st ++ [Event.fatalEvt], none)

/-- The decoder's `explain` loop: repeatedly parse one command; at end of
input an `eojMissing` error is produced when still initialized.  The
driver advances by `max k 1` bytes, which equals the parsed command's
length (every parsed command is at least one byte long). -/
def explain (st : DecSt) (input : List Nat) : List Event :=
  match input with
  | [] => if st.initialized then [Event.eojMissing] else []
  | c :: rest =>
    match explainStep st (c :: rest) with
    | (evs, none) => evs
    | (evs, some (st2, k)) => evs ++ explain st2 ((c :: rest).drop (max k 1))
  termination_by input.length
  decreasing_by
  simp only [List.length_drop, List.length_cons]
  omega

/-- Base job options for concrete test jobs: the `parse_job_options`
defaults with a 4-byte line width. -/
def optsBase : job_options :=
  { pixel_xfer := .RLE, print_quality_high := true, auto_cut := false,
    half_cut := false, cut_mark := false, cut_label := -1, chain_printing := true,
    mirror_print := false, pt_series := false, ql_series := false,
    bytes_per_line := 4, media := .TAPE, software_mirror := false,
    print_density := 0, legacy_xfer_mode := -1, xfer_mode := -1,
    label_preamble := false, label_recoyery := false, last_page_flag := false,
    legacy_hires := false, concat_pages := false, status_notification := -1 }

/-- Base page for concrete test jobs: three 4-byte rows (one of them blank),
geometry with no margins so no lines are skipped or synthesized. -/
def pageBase : page_params :=
  { rows := [[128, 0, 0, 1], [0, 0, 0, 0], [1, 2, 3, 4]],
    cupsBytesPerLine := 4, cupsWidth := 32, negative := false, hwResX := 180,
    hwResY := 180, tapeWidthMm := 24, tapeLengthMm := 0, rightPaddingBits := 0,
    bboxTopZero := true, topDistancePx := 0, imageHeightPx := 3, minFeedPx := 0,
    marginFeedPx := 0, botConcatPx := 0 }

/-- An all-set-pixels page printed with negative-print, full width. -/
def pageAllSetNegative : page_params :=
  { pageBase with rows := [[255, 255, 255, 255]], imageHeightPx := 1,
                  negative := true }

/-- Command classifiers for counting emitted commands. -/
def isVarious : Cmd → Bool
  | .variousModeCmd _ => true
  | _ => false

def isAdvanced : Cmd → Bool
  | .advancedModeCmd _ => true
  | _ => false

def isMarginCmd : Cmd → Bool
  | .marginCmd _ => true
  | _ => false

def isInitCmd : Cmd → Bool
  | .initCmd => true
  | _ => false

def isEjectCmd : Cmd → Bool
  | .ejectCmd => true
  | _ => false

def isFormfeed : Cmd → Bool
  | .formfeedCmd => true
  | _ => false

def isRasterCmd : Cmd → Bool
  | .rasterCmd _ => true
  | _ => false

def isComprSelect : Cmd → Bool
  | .selectComprCmd _ => true
  | _ => false

/-- Commands that the row buffer (stores, pressure flushes, page flushes)
can emit: the print-information preamble, raster packets, and the ULP/BIP
expansions.  The sequencer-level commands never come from the buffer. -/
def FlushCmd : Cmd → Bool
  | .printInfoCmd _ _ _ _ _ _ => true
  | .rasterCmd _ => true
  | .blobCmd _ => true
  | _ => false

/-- The decoder events that indicate an error: missing initialization or
end-of-job, a fatal parse abort, or a command accepted with its bad-value
flag set. -/
def Event.isErr : Event → Bool
  | .initMissing => true
  | .eojMissing => true
  | .fatalEvt => true
  | .switchModeEvt _ _ bad => bad
  | .selectComprEvt _ bad => bad
  | .zeroRasterEvt bad => bad
  | _ => false

/-- The raster payloads of a decoded event stream, in order: `some row`
for a decompressed TIFF raster line, `none` for the zero-line shortcut
`Z`. -/
def rasterEvents (evs : List Event) : List (Option (List Nat)) :=
  evs.filterMap fun e =>
    match e with
    | Event.rasterLineEvt pl => some (some pl)
    | Event.zeroRasterEvt _ => some none
    | _ => none

/-- The raster packets of a command stream, in order. -/
def rasterPackets (cmds : List Cmd) : List Packet :=
  cmds.filterMap fun c =>
    match c with
    | Cmd.rasterCmd p => some p
    | _ => none

/-- The row a stored packet stands for on the wire: the TIFF
decompression of an encoded body, `none` for the zero-row shortcut
`Z`. -/
def pktRow : Packet → Option (List Nat)
  | Packet.enc _ body => (decompressTiff body.length body).map (fun pr => pr.1)
  | Packet.z => none

/-- A well-formed stored packet: the zero-row byte, or a tagged body that
is a valid run sequence for some row and short enough to fit the
decoder's 128-byte command stack (which also keeps the 16-bit length
framing exact and the 'g' tag's high length byte zero). -/
def PacketWf (ql : Bool) (p : Packet) : Prop :=
  p = Packet.z ∨ ∃ body buf, p = Packet.enc ql body ∧ Runs body buf ∧
    body.length ≤ 128

/-- Every packet in the arena is well formed. -/
def BufWf (ql : Bool) (b : BufSt) : Prop :=
  ∀ p ∈ b.packets, PacketWf ql p

/-- The commands the row buffer emits under run-length transfer: the
print-information preamble and well-formed raster packets. -/
def MidCmd (ql : Bool) (c : Cmd) : Prop :=
  (∃ a b c2 d e f, c = Cmd.printInfoCmd a b c2 d e f) ∨
  (∃ p, c = Cmd.rasterCmd p ∧ PacketWf ql p)

/-- Command sequences (after the initial zero pad and `ESC @`) that the
decoder parses without any error event: mode-preserving commands with
known opcodes and good values, the RLE compression select (after which
raster packets are legal, the mode being TIFF), and the single final
eject. -/
inductive GoodSeq : CMode → List Cmd → Prop
  | eject (m : CMode) : GoodSeq m [Cmd.ejectCmd]
  | statusNotif (m : CMode) (v : Nat) (rest : List Cmd) : GoodSeq m rest →
      GoodSeq m (Cmd.statusNotifCmd v :: rest)
  | legacyXfer (m : CMode) (v : Nat) (rest : List Cmd)
      (hv : v % 256 = 0 ∨ v % 256 = 1 ∨ v % 256 = 3) : GoodSeq m rest →
      GoodSeq m (Cmd.legacyXfer v :: rest)
  | xfer (m : CMode) (v : Nat) (rest : List Cmd)
      (hv : v % 256 = 0 ∨ v % 256 = 1 ∨ v % 256 = 3) : GoodSeq m rest →
      GoodSeq m (Cmd.xferCmd v :: rest)
  | legacyHires (m : CMode) (b0 b1 b2 b3 b4 : Nat) (rest : List Cmd) :
      GoodSeq m rest → GoodSeq m (Cmd.legacyHiresCmd b0 b1 b2 b3 b4 :: rest)
  | various (m : CMode) (v : Nat) (rest : List Cmd) : GoodSeq m rest →
      GoodSeq m (Cmd.variousModeCmd v :: rest)
  | advanced (m : CMode) (v : Nat) (rest : List Cmd) : GoodSeq m rest →
      GoodSeq m (Cmd.advancedModeCmd v :: rest)
  | cutEvery (m : CMode) (v : Nat) (rest : List Cmd) : GoodSeq m rest →
      GoodSeq m (Cmd.cutEveryCmd v :: rest)
  | margin (m : CMode) (f : Nat) (rest : List Cmd) : GoodSeq m rest →
      GoodSeq m (Cmd.marginCmd f :: rest)
  | printInfo (m : CMode) (a b c2 d e f : Nat) (rest : List Cmd) :
      GoodSeq m rest → GoodSeq m (Cmd.printInfoCmd a b c2 d e f :: rest)
  | selectCompr (m : CMode) (rest : List Cmd) : GoodSeq CMode.tiff rest →
      GoodSeq m (Cmd.selectComprCmd 2 :: rest)
  | raster (ql : Bool) (p : Packet) (rest : List Cmd) (hp : PacketWf ql p) :
      GoodSeq CMode.tiff rest → GoodSeq CMode.tiff (Cmd.rasterCmd p :: rest)
  | formfeed (m : CMode) (rest : List Cmd) : GoodSeq m rest →
      GoodSeq m (Cmd.formfeedCmd :: rest)


end Ptouch

namespace Ptouch

theorem runs_append {a x b y : List Nat} (ha : Runs a x) (hb : Runs b y) :
    Runs (a ++ b) (x ++ y) := by
  induction ha with
  | nil => simpa using hb
  | mixRun bs rest out hne hle _ ih =>
    have := Runs.mixRun bs (rest ++ b) (out ++ y) hne hle ih
    simpa [List.append_assoc] using this
  | repRun r v rest out h2 h129 _ ih =>
    have := Runs.repRun r v (rest ++ b) (out ++ y) h2 h129 ih
    simpa [List.append_assoc] using this

theorem runs_encMix {m : List Nat} (h : 0 < m.length) :
    Runs (encMix m) (m.take 128) := by
  have hne : m.take 128 ≠ [] := by
    intro hcontra
    have hl : (m.take 128).length = 0 := by rw [hcontra]; rfl
    simp only [List.length_take] at hl
    omega
  have hle : (m.take 128).length ≤ 128 := by
    simp only [List.length_take]
    omega
  have := Runs.mixRun (m.take 128) [] [] hne hle Runs.nil
  simpa [encMix] using this

theorem runs_repOne {r v : Nat} (h2 : 2 ≤ r) (h129 : r ≤ 129) :
    Runs [encRep r, v] (List.replicate r v) := by
  have := Runs.repRun r v [] [] h2 h129 Runs.nil
  simpa using this

theorem encMix_length (m : List Nat) :
    (encMix m).length = min m.length 128 + 1 := by
  by_cases h : m.length ≤ 128
  · simp [encMix, List.length_take]
    omega
  · simp [encMix, List.length_take]
    omega

theorem rleCap_inv {p : List Nat} {s : RleSt} (v : Nat) (h : RleInv p s) :
    RleInv p (rleCap s v) ∧ (rleCap s v).repc ≤ 128 := by
  obtain ⟨eb, hruns, hp, hmix, hrepc, hmix3, hbound⟩ := h
  unfold rleCap
  by_cases hc : 129 ≤ s.repc
  · have hr129 : s.repc = 129 := le_antisymm hrepc hc
    have hmixnil : s.mix = [] := hmix3 (by omega)
    simp only [if_pos hc]
    unfold RleInv
    dsimp only
    refine ⟨⟨eb ++ List.replicate s.repc s.repv, ?_, ?_, by simp, by simp, by simp, ?_⟩, by simp⟩
    · exact runs_append hruns (by simpa [hr129] using runs_repOne (by omega) (by omega))
    · simp [hp, hmixnil]
    · have h1 : s.out.length ≤ eb.length + eb.length / 128 + 1 := by
        simpa [hr129] using hbound
      simp only [List.length_append, List.length_replicate, List.length_cons,
        List.length_nil, hr129]
      have h2 : eb.length / 128 + 1 ≤ (eb.length + 129) / 128 := by omega
      simp only [show ¬ (3:Nat) ≤ 0 by omega, if_false]
      omega
  · simp only [if_neg hc]
    exact ⟨⟨eb, hruns, hp, hmix, hrepc, hmix3, hbound⟩, by omega⟩

theorem rleMain_inv {p : List Nat} {s : RleSt} (v : Nat) (h : RleInv p s)
    (hr : s.repc ≤ 128) : RleInv (p ++ [v]) (rleMain s v) := by
  obtain ⟨eb, hruns, hp, hmix, hrepc, hmix3, hbound⟩ := h
  unfold rleMain
  by_cases hv : v = s.repv
  · simp only [if_pos hv]
    by_cases hflush : s.repc = 2 ∧ 0 < s.mix.length
    · simp only [if_pos hflush]
      obtain ⟨hr2, hm0⟩ := hflush
      have htake : s.mix.take 128 = s.mix := List.take_of_length_le (by omega)
      unfold RleInv
      dsimp only
      refine ⟨eb ++ s.mix, ?_, ?_, by simp, by omega, by simp, ?_⟩
      · have := runs_append hruns (runs_encMix hm0)
        rwa [htake] at this
      · rw [hp, hv, hr2]
        simp [List.replicate_succ' (n := 2), List.append_assoc]
      · have hb : s.out.length ≤ eb.length + eb.length / 128 := by
          simpa [hr2] using hbound
        have hl : (encMix s.mix).length = s.mix.length + 1 := by
          rw [encMix_length]; omega
        rw [if_pos (by omega : 3 ≤ s.repc + 1)]
        simp only [List.length_append, hl]
        have : eb.length / 128 ≤ (eb.length + s.mix.length) / 128 := by omega
        omega
    · simp only [if_neg hflush]
      have hm0 : s.repc = 2 → s.mix = [] := by
        intro h2
        rcases Nat.eq_zero_or_pos s.mix.length with hz | hpos
        · exact List.eq_nil_of_length_eq_zero hz
        · exact absurd ⟨h2, hpos⟩ hflush
      unfold RleInv
      dsimp only
      refine ⟨eb, hruns, ?_, hmix, by omega, ?_, ?_⟩
      · rw [hp, hv]
        simp [List.replicate_succ' (n := s.repc), List.append_assoc]
      · intro h3
        rcases Nat.lt_or_ge s.repc 2 with hlt | hge
        · omega
        · rcases Nat.eq_or_lt_of_le hge with he | hlt2
          · exact hm0 he.symm
          · exact hmix3 hlt2
      · rcases Nat.lt_or_ge s.repc 2 with hlt | hge
        · have : ¬ 3 ≤ s.repc + 1 := by omega
          simp only [this, if_false]
          have : ¬ 3 ≤ s.repc := by omega
          simpa [this] using hbound
        · split
          · rcases Nat.lt_or_ge s.repc 3 with hlt3 | hge3
            · have : ¬ 3 ≤ s.repc := by omega
              simp only [this, if_false] at hbound
              omega
            · rw [if_pos hge3] at hbound
              exact hbound
          · omega
  · simp only [if_neg hv]
    by_cases hrep : 2 < s.repc
    · simp only [if_pos hrep]
      have hmixnil : s.mix = [] := hmix3 hrep
      unfold RleInv
      dsimp only
      refine ⟨eb ++ List.replicate s.repc s.repv, ?_, ?_, by simp, by omega, by simp, ?_⟩
      · exact runs_append hruns (runs_repOne (by omega) (by omega))
      · rw [hp, hmixnil]
        simp [List.append_assoc]
      · have hb : s.out.length ≤ eb.length + eb.length / 128 + 1 := by
          rw [if_pos (show 3 ≤ s.repc by omega)] at hbound
          exact hbound
        rw [if_neg (by omega : ¬ 3 ≤ 1)]
        simp only [List.length_append, List.length_replicate, List.length_cons,
          List.length_nil]
        have : eb.length / 128 ≤ (eb.length + s.repc) / 128 := by omega
        omega
    · simp only [if_neg hrep]
      have hb : s.out.length ≤ eb.length + eb.length / 128 := by
        have : ¬ 3 ≤ s.repc := by omega
        simpa [this] using hbound
      by_cases h128 : 128 ≤ (s.mix ++ List.replicate s.repc s.repv).length
      · simp only [if_pos h128]
        have hlen : (s.mix ++ List.replicate s.repc s.repv).length ≤ 129 := by
          simp only [List.length_append, List.length_replicate]
          omega
        have hm0 : 0 < (s.mix ++ List.replicate s.repc s.repv).length := by omega
        unfold RleInv
        dsimp only
        refine ⟨eb ++ (s.mix ++ List.replicate s.repc s.repv).take 128, ?_, ?_, ?_, by omega,
          by simp, ?_⟩
        · exact runs_append hruns (runs_encMix hm0)
        · rw [hp]
          have := List.take_append_drop 128 (s.mix ++ List.replicate s.repc s.repv)
          calc eb ++ s.mix ++ List.replicate s.repc s.repv ++ [v]
              = eb ++ ((s.mix ++ List.replicate s.repc s.repv).take 128
                  ++ (s.mix ++ List.replicate s.repc s.repv).drop 128) ++ [v] := by
                rw [this]; simp [List.append_assoc]
            _ = _ := by simp [List.append_assoc, List.replicate]
        · simp only [List.length_drop]
          omega
        · have hl : (encMix (s.mix ++ List.replicate s.repc s.repv)).length = 129 := by
            rw [encMix_length]
            omega
          have htl : ((s.mix ++ List.replicate s.repc s.repv).take 128).length = 128 := by
            simp only [List.length_take]
            omega
          rw [if_neg (by omega : ¬ 3 ≤ 1)]
          simp only [List.length_append, hl, htl]
          have : (eb.length + 128) / 128 = eb.length / 128 + 1 := by omega
          omega
      · simp only [if_neg h128]
        unfold RleInv
        dsimp only
        refine ⟨eb, hruns, ?_, ?_, by omega, by simp, ?_⟩
        · rw [hp]
          simp [List.append_assoc, List.replicate]
        · simp only [List.length_append, List.length_replicate] at h128 ⊢
          omega
        · rw [if_neg (by omega : ¬ 3 ≤ 1)]
          omega

theorem rleStep_inv {p : List Nat} {s : RleSt} (v : Nat) (h : RleInv p s) :
    RleInv (p ++ [v]) (rleStep s v) := by
  obtain ⟨h1, h2⟩ := rleCap_inv v h
  exact rleMain_inv v h1 h2

theorem rleFold_inv {s : RleSt} (l : List Nat) {p : List Nat} (h : RleInv p s) :
    RleInv (p ++ l) (l.foldl rleStep s) := by
  induction l generalizing p s with
  | nil => simpa using h
  | cons v l ih =>
    have := ih (rleStep_inv v h)
    simpa [List.append_assoc] using this

theorem rleInit_inv (b : Nat) : RleInv [] ⟨[], [], 0, b⟩ :=
  ⟨[], Runs.nil, by simp, by simp, by simp, by simp, by simp⟩

theorem rleFinish_spec {p : List Nat} {s : RleSt} (h : RleInv p s) :
    Runs (rleFinish s) p ∧ (rleFinish s).length ≤ p.length + p.length / 128 + 1 := by
  obtain ⟨eb, hruns, hp, hmix, hrepc, hmix3, hbound⟩ := h
  unfold rleFinish
  by_cases hrep : 2 < s.repc
  · simp only [if_pos hrep]
    have hmixnil : s.mix = [] := hmix3 hrep
    have hb : s.out.length ≤ eb.length + eb.length / 128 + 1 := by
      rw [if_pos (show 3 ≤ s.repc by omega)] at hbound
      exact hbound
    constructor
    · rw [hp, hmixnil]
      simpa using runs_append hruns (runs_repOne (by omega) (by omega))
    · have hplen : p.length = eb.length + s.repc := by
        rw [hp, hmixnil]
        simp
      have hd : eb.length / 128 ≤ p.length / 128 := by omega
      have hlen2 : (s.out ++ [encRep s.repc, s.repv]).length = s.out.length + 2 := by
        simp
      omega
  · simp only [if_neg hrep]
    have hb : s.out.length ≤ eb.length + eb.length / 128 := by
      have : ¬ 3 ≤ s.repc := by omega
      simpa [this] using hbound
    set m1 := s.mix ++ List.replicate s.repc s.repv with hm1def
    have hlen : m1.length ≤ 129 := by
      simp only [hm1def, List.length_append, List.length_replicate]
      omega
    have hplen : p.length = eb.length + m1.length := by
      rw [hp]
      simp [hm1def, List.append_assoc]
    have hp1 : p = eb ++ m1 := by
      rw [hp]
      simp [hm1def, List.append_assoc]
    by_cases hm0 : 0 < m1.length
    · simp only [if_pos hm0]
      by_cases hd : 0 < (m1.drop 128).length
      · simp only [if_pos hd]
        have h129 : m1.length = 129 := by
          simp only [List.length_drop] at hd
          omega
        have hdlen : (m1.drop 128).length = 1 := by
          simp only [List.length_drop]
          omega
        have r1 := runs_encMix hm0
        have r2 : Runs (encMix (m1.drop 128)) (m1.drop 128) := by
          have := runs_encMix (m := m1.drop 128) (by omega)
          rwa [List.take_of_length_le (by omega)] at this
        constructor
        · have hall := runs_append hruns (runs_append r1 r2)
          rw [List.take_append_drop 128 m1] at hall
          rw [hp1]
          simpa [List.append_assoc] using hall
        · have hl1 : (encMix m1).length = 129 := by
            rw [encMix_length]
            omega
          have hl2 : (encMix (m1.drop 128)).length = 2 := by
            rw [encMix_length]
            omega
          simp only [List.length_append, hl1, hl2, hplen, h129]
          have : (eb.length + 129) / 128 ≥ eb.length / 128 + 1 := by omega
          omega
      · simp only [if_neg hd]
        have hle128 : m1.length ≤ 128 := by
          simp only [List.length_drop] at hd
          omega
        have htake : m1.take 128 = m1 := List.take_of_length_le hle128
        constructor
        · have hall := runs_append hruns (runs_encMix hm0)
          rw [htake] at hall
          rw [hp1]
          exact hall
        · have hl1 : (encMix m1).length = m1.length + 1 := by
            rw [encMix_length]
            omega
          simp only [List.length_append, hl1, hplen]
          have : eb.length / 128 ≤ (eb.length + m1.length) / 128 := by omega
          omega
    · simp only [if_neg hm0]
      have : m1 = [] := List.eq_nil_of_length_eq_zero (by omega)
      constructor
      · rw [hp1, this]
        simpa using hruns
      · rw [hplen]
        omega

theorem decompressTiff_mix (bs t : List Nat) (k : Nat) (h1 : bs ≠ [])
    (h2 : bs.length ≤ 128) :
    decompressTiff (bs.length + k + 1) ((bs.length - 1) :: (bs ++ t)) =
      (decompressTiff k t).map (fun pr => (bs ++ pr.1, pr.2)) := by
  have hpos : 0 < bs.length := List.length_pos.mpr h1
  have hc : ¬ 128 ≤ bs.length - 1 := by omega
  rw [show bs.length + k + 1 = (bs.length + k) + 1 by ring]
  rw [decompressTiff]
  rw [if_neg hc]
  have hspan : bs.length - 1 + 1 = bs.length := by omega
  simp only [hspan]
  rw [if_neg (by omega : ¬ bs.length + k < bs.length)]
  rw [if_neg (by simp only [List.length_append]; omega : ¬ (bs ++ t).length < bs.length)]
  rw [show bs.length + k - bs.length = k by omega]
  rw [List.drop_left, List.take_left]

theorem decompressTiff_rep (r v : Nat) (t : List Nat) (k : Nat) (h2 : 2 ≤ r)
    (h129 : r ≤ 129) :
    decompressTiff (k + 2) (encRep r :: v :: t) =
      (decompressTiff k t).map (fun pr => (List.replicate r v ++ pr.1, pr.2)) := by
  have henc : encRep r = 257 - r := by
    unfold encRep
    exact Nat.mod_eq_of_lt (by omega)
  have hc : 128 ≤ encRep r := by omega
  rw [show k + 2 = (k + 1) + 1 by ring]
  rw [decompressTiff]
  rw [if_pos hc]
  rw [if_neg (by simp : ¬ (k + 1 = 0 ∨ v :: t = []))]
  simp only [List.tail_cons, List.headD_cons, Nat.add_sub_cancel]
  simp only [henc]
  rw [show 257 - (257 - r) = r by omega]

theorem decompressTiff_runs {body out : List Nat} (h : Runs body out) :
    ∀ rest, decompressTiff body.length (body ++ rest) = some (out, rest) := by
  induction h with
  | nil =>
    intro rest
    simp [decompressTiff]
  | mixRun bs rest0 out0 hne hle _ ih =>
    intro rest
    have hlen : ((bs.length - 1) :: (bs ++ rest0)).length = bs.length + rest0.length + 1 := by
      simp
    rw [hlen]
    have hshape : ((bs.length - 1) :: (bs ++ rest0)) ++ rest
        = (bs.length - 1) :: (bs ++ (rest0 ++ rest)) := by
      simp [List.append_assoc]
    rw [hshape]
    rw [decompressTiff_mix bs (rest0 ++ rest) rest0.length hne hle]
    rw [ih rest]
    rfl
  | repRun r v rest0 out0 h2 h129 _ ih =>
    intro rest
    have hlen : (encRep r :: v :: rest0).length = rest0.length + 2 := by simp
    rw [hlen]
    have hshape : (encRep r :: v :: rest0) ++ rest = encRep r :: v :: (rest0 ++ rest) := by
      simp
    rw [hshape]
    rw [decompressTiff_rep r v (rest0 ++ rest) rest0.length h2 h129]
    rw [ih rest]
    rfl

theorem rle_encode_inv (buf : List Nat) :
    Runs (rle_encode buf) buf ∧
      (rle_encode buf).length ≤ buf.length + buf.length / 128 + 1 := by
  match buf with
  | [] =>
    constructor
    · exact Runs.nil
    · simp [rle_encode]
  | b :: l =>
    have hinv := rleFold_inv (b :: l) (rleInit_inv b)
    rw [List.nil_append] at hinv
    have := rleFinish_spec hinv
    simpa [rle_encode] using this

theorem rle_encode_runs (buf : List Nat) : Runs (rle_encode buf) buf :=
  (rle_encode_inv buf).1

theorem rle_roundtrip (buf rest : List Nat) :
    decompressTiff (rle_encode buf).length (rle_encode buf ++ rest) = some (buf, rest) :=
  decompressTiff_runs (rle_encode_runs buf) rest

theorem lor_zero_split {a b : Nat} (h : a ||| b = 0) : a = 0 ∧ b = 0 := by
  constructor <;> apply Nat.zero_of_testBit_eq_false <;> intro i <;>
    have hbit := congrArg (fun x => Nat.testBit x i) h <;>
    simp only [Nat.testBit_lor, Nat.zero_testBit, Bool.or_eq_false_iff] at hbit
  · exact hbit.1
  · exact hbit.2

theorem foldl_or_eq_zero (l : List Nat) (a : Nat) :
    l.foldl (· ||| ·) a = 0 ↔ a = 0 ∧ ∀ b ∈ l, b = 0 := by
  induction l generalizing a with
  | nil => simp
  | cons x xs ih =>
    rw [List.foldl_cons, ih]
    constructor
    · rintro ⟨h1, h2⟩
      have hsplit := lor_zero_split h1
      exact ⟨hsplit.1, fun b hb => by
        rcases List.mem_cons.mp hb with hb | hb
        · exact hb ▸ hsplit.2
        · exact h2 b hb⟩
    · rintro ⟨h1, h2⟩
      refine ⟨?_, fun b hb => h2 b (List.mem_cons_of_mem x hb)⟩
      rw [h1, h2 x (List.mem_cons_self x xs)]
      rfl

/-- C1: the run-length-encoded packet body `RLE_store_line` writes to the
arena (excluding the 3-byte tag/length prefix; a 'Z' packet has an empty
body) is at most `n + n/128 + 1` bytes for an `n`-byte input row. -/
theorem RLE_store_line_body_bound (o : job_options) (buf : List Nat) :
    ((RLE_store_line_packet o buf).body).length ≤ buf.length + buf.length / 128 + 1 := by
  unfold RLE_store_line_packet
  split
  · simpa [Packet.body] using (rle_encode_inv buf).2
  · simp [Packet.body]

/-- C9: the raster-line tag letter and length-prefix byte order of every
stored packet depend only on the `ql_series` flag — both `RLE_store_line`
and `RLE_store_empty_lines` tag their packets with exactly `o.ql_series`
(`pt_series` plays no role), and the framing is 'g' with big-endian length
when `ql_series` and 'G' with little-endian length otherwise (including the
default options where neither series flag is set). -/
theorem stored_packet_tag_ql_only (o : job_options) (buf : List Nat) (mask : Nat) :
    (buf.foldl (· ||| ·) 0 ≠ 0 →
      RLE_store_line_packet o buf = Packet.enc o.ql_series (rle_encode buf)) ∧
    (mask ≠ 0 →
      RLE_store_empty_packet o mask
        = Packet.enc o.ql_series (emptyLineBody mask o.bytes_per_line)) ∧
    (∀ body : List Nat,
      (Packet.enc o.ql_series body).bytes =
        if o.ql_series then
          103 :: ((body.length >>> 8) &&& 255) :: (body.length &&& 255) :: body
        else
          71 :: (body.length &&& 255) :: ((body.length >>> 8) &&& 255) :: body) := by
  refine ⟨fun h => ?_, fun h => ?_, fun body => ?_⟩
  · simp [RLE_store_line_packet, h]
  · simp [RLE_store_empty_packet, h]
  · simp [Packet.bytes]

theorem stored_packet_tag_ql_only_witness :
    RLE_store_line_packet optsBase [1, 2]
        = Packet.enc optsBase.ql_series (rle_encode [1, 2]) ∧
      RLE_store_empty_packet optsBase 255
        = Packet.enc optsBase.ql_series (emptyLineBody 255 optsBase.bytes_per_line) :=
  ⟨(stored_packet_tag_ql_only optsBase [1, 2] 255).1 (by decide),
   (stored_packet_tag_ql_only optsBase [1, 2] 255).2.1 (by decide)⟩

/-- C4: evaluation of `generate_emit_line` in the mirror-and-shift branch:
for the blank 1-byte row with `bytes_per_line = 2`, `shift = 1`,
`do_mirror = true`, `xormask = 0xFF`, the output is `[0xFF, 0x00]` — the
final carry byte is written as `box & 0xff` without the XOR mask, so it is
not the complement 0xFF the mask requires. -/
theorem generate_emit_line_mirror_shift_unmasked_carry :
    generate_emit_line [0] 2 0 1 true 255 = ([255, 0], false) := by decide

/-- C5 counterexample: a page printed with negative-print whose single row
has all pixels set (transformed value all zero bytes) is stored as the
single-byte 'Z' empty-row token by `emit_raster_lines`. -/
theorem negative_allset_row_stored_as_Z :
    pageAllSetNegative.negative = true ∧
      (emit_raster_lines optsBase pageAllSetNegative 1 (⟨[], 0, 0⟩, 0)).2.1.packets
        = [Packet.z] := by decide

/-- C5 amended: `RLE_store_line` uses the 'Z' shortcut exactly when the
*transformed* (post-XOR) row is all zero bytes — an all-set input row under
negative print transforms to zeros and is stored as 'Z' — while the rows
`RLE_store_empty_lines` synthesizes under a nonzero mask are never 'Z'. -/
theorem Z_shortcut_iff_transformed_zero (o : job_options) (buf : List Nat) (mask : Nat) :
    (RLE_store_line_packet o buf = Packet.z ↔ ∀ b ∈ buf, b = 0) ∧
    (mask ≠ 0 → RLE_store_empty_packet o mask ≠ Packet.z) := by
  constructor
  · unfold RLE_store_line_packet
    split
    · rename_i h
      constructor
      · intro hcontra
        exact absurd hcontra (by simp)
      · intro hall
        exact absurd ((foldl_or_eq_zero buf 0).mpr ⟨rfl, hall⟩) h
    · rename_i h
      simp only [not_not] at h
      simp only [true_iff]
      exact ((foldl_or_eq_zero buf 0).mp h).2
  · intro h
    simp [RLE_store_empty_packet, h]

theorem Z_shortcut_iff_transformed_zero_witness :
    RLE_store_line_packet optsBase [0, 0] = Packet.z ∧
      RLE_store_empty_packet optsBase 255 ≠ Packet.z :=
  ⟨(Z_shortcut_iff_transformed_zero optsBase [0, 0] 255).1.mpr (by decide),
   (Z_shortcut_iff_transformed_zero optsBase [0, 0] 255).2 (by decide)⟩

/-- C8 counterexample: `ensure_rle_buf_space` returns normally after a
single doubling even when the request exceeds the grown capacity — from an
empty arena, a request of 0x4001 bytes grows the capacity only to 0x4000
(not to `max(2·cap + 0x4000, requested)`) and returns without room. -/
theorem ensure_no_room_on_normal_return :
    ensure_rle_buf_space 0 0 16385 = Except.ok (0, 16384) ∧ 16384 < 0 + 16385 :=
  ⟨rfl, by omega⟩

/-- C8 amended: `ensure_rle_buf_space` grows the capacity to exactly
`2·capacity + 0x4000` (never to the max with the request), subject to the
1,000,000-byte cap; it fails with `OutOfBuffer` exactly when the grown size
would exceed the cap and the request still exceeds the (unchanged) capacity
after the flush empties the arena; and on a normal return the arena has
room for the request unless the request exceeds even the grown capacity. -/
theorem ensure_rle_buf_space_spec (len cap bytes : Nat) :
    (ensure_rle_buf_space len cap bytes = Except.error ()
       ↔ (cap < len + bytes ∧ 1000000 < 2 * cap + 16384 ∧ cap < bytes)) ∧
    (∀ len2 cap2, ensure_rle_buf_space len cap bytes = Except.ok (len2, cap2) →
       len2 + bytes ≤ cap2 ∨ 2 * cap + 16384 < len + bytes) ∧
    (∀ len2 cap2, ensure_rle_buf_space len cap bytes = Except.ok (len2, cap2) →
       cap2 = cap ∨ cap2 = 2 * cap + 16384) := by
  unfold ensure_rle_buf_space
  split_ifs with h1 h2 h3
  · refine ⟨⟨fun h => by simp at h, fun h => by omega⟩, ?_, ?_⟩
    · intro len2 cap2 h
      simp only [Except.ok.injEq, Prod.mk.injEq] at h
      omega
    · intro len2 cap2 h
      simp only [Except.ok.injEq, Prod.mk.injEq] at h
      omega
  · refine ⟨⟨fun _ => ⟨h1, by omega, h3⟩, fun _ => rfl⟩, ?_, ?_⟩
    · intro len2 cap2 h
      simp at h
    · intro len2 cap2 h
      simp at h
  · refine ⟨⟨fun h => by simp at h, fun h => by omega⟩, ?_, ?_⟩
    · intro len2 cap2 h
      simp only [Except.ok.injEq, Prod.mk.injEq] at h
      omega
    · intro len2 cap2 h
      simp only [Except.ok.injEq, Prod.mk.injEq] at h
      omega
  · refine ⟨⟨fun h => by simp at h, fun h => by omega⟩, ?_, ?_⟩
    · intro len2 cap2 h
      simp only [Except.ok.injEq, Prod.mk.injEq] at h
      omega
    · intro len2 cap2 h
      simp only [Except.ok.injEq, Prod.mk.injEq] at h
      omega

theorem ensure_rle_buf_space_spec_witness :
    0 + 16385 ≤ 16384 ∨ 2 * 0 + 16384 < 0 + 16385 :=
  (ensure_rle_buf_space_spec 0 0 16385).2.1 0 16384 rfl

/-- The `exit (-1)` path of `ensure_rle_buf_space` is unreachable for the
request sizes the encoder issues (at most 260 bytes): when growth is
blocked by the 1,000,000-byte cap the existing capacity already exceeds
any such request. -/
theorem ensure_exit_unreachable (cap bytes : Nat) (hb : bytes ≤ 260)
    (hcap : 1000000 < 2 * cap + 16384) : bytes ≤ cap := by
  omega

/-- C10: the decoder accepts a 'g' raster-line command only when its first
length byte is 0x00 — a nonzero first byte aborts decoding fatally at that
command — and with a zero first byte the second length byte alone gives the
body length: a well-formed body of that length (necessarily at most 128
bytes, the decoder's command-stack capacity) parses to one raster line,
while a declared length above 128 overflows the command stack and also
aborts fatally, so 'g' bodies longer than the stack are unrepresentable to
the decoder. -/
theorem explain_g_requires_zero_first_length_byte (st : DecSt) (d0 d1 : Nat)
    (r : List Nat) (hinit : st.initialized = true) :
    (d0 ≠ 0 → explain st (103 :: d0 :: d1 :: r) = [Event.fatalEvt]) ∧
    (st.compression = CMode.tiff →
      ∀ body rest out, r = body ++ rest → Runs body out → body.length = d1 →
        d1 ≤ 128 →
        explain st (103 :: 0 :: d1 :: r)
          = Event.rasterLineEvt out :: explain ⟨CMode.tiff, true⟩ rest) ∧
    (128 < d1 → explain st (103 :: 0 :: d1 :: r) = [Event.fatalEvt]) := by
  refine ⟨?_, ?_, ?_⟩
  · intro h0
    rw [explain]
    simp [explainStep, h0, preInit, hinit]
  · intro hc body rest out hr hruns hlen h128
    subst hr
    subst hlen
    have hdec := decompressTiff_runs hruns rest
    have hER : explainRaster st body.length (body ++ rest)
        = ([Event.rasterLineEvt out], some (⟨CMode.tiff, true⟩, body.length)) := by
      unfold explainRaster
      rw [if_neg (by omega : ¬ 128 < body.length)]
      rw [hc]
      simp [checkCompression, hdec]
    rw [explain]
    simp only [explainStep, hER, preInit, hinit, if_true, if_false]
    simp only [ne_eq, not_true_eq_false, if_false, List.nil_append]
    have hdrop : (103 :: 0 :: body.length :: (body ++ rest)).drop
        (max (body.length + 3) 1) = rest := by
      have hm : max (body.length + 3) 1 = body.length + 3 := by omega
      rw [hm]
      simp only [List.drop_succ_cons]
      simp
    simp [hdrop]
  · intro h128
    have hER : explainRaster st d1 r = ([Event.fatalEvt], none) := by
      unfold explainRaster
      rw [if_pos h128]
    rw [explain]
    simp [explainStep, hER, preInit, hinit]

theorem explain_g_requires_zero_first_length_byte_witness :
    explain ⟨CMode.tiff, true⟩ [103, 1, 2, 0, 42] = [Event.fatalEvt] ∧
    explain ⟨CMode.tiff, true⟩ [103, 0, 2, 0, 42]
      = Event.rasterLineEvt [42] :: explain ⟨CMode.tiff, true⟩ [] ∧
    explain ⟨CMode.tiff, true⟩ (103 :: 0 :: 129 :: List.replicate 129 0)
      = [Event.fatalEvt] := by
  refine ⟨?_, ?_, ?_⟩
  · exact (explain_g_requires_zero_first_length_byte ⟨CMode.tiff, true⟩ 1 2 [0, 42]
      rfl).1 (by decide)
  · refine (explain_g_requires_zero_first_length_byte ⟨CMode.tiff, true⟩ 0 2 [0, 42]
      rfl).2.1 rfl [0, 42] [] [42] (by simp) ?_ rfl (by omega)
    have h0 := Runs.mixRun [42] [] [] (by simp) (by simp) Runs.nil
    simpa using h0
  · exact (explain_g_requires_zero_first_length_byte ⟨CMode.tiff, true⟩ 0 129
      (List.replicate 129 0) rfl).2.2 (by omega)

theorem flush_cmds_flushOnly (o : job_options) (pp : page_params) (page : Nat)
    (lp : Bool) (b : BufSt) :
    ∀ c ∈ (flush_rle_buffer o pp page lp b).1, FlushCmd c = true := by
  unfold flush_rle_buffer
  split
  · simp
  · intro c hc
    simp only [List.mem_append] at hc
    rcases hc with hc | hc
    · split at hc
      · simp only [List.mem_singleton] at hc
        subst hc
        rfl
      · simp at hc
    · split at hc <;> simp only [List.mem_map] at hc <;>
        obtain ⟨p, -, rfl⟩ := hc <;> rfl

theorem ensureBuf_flushOnly (o : job_options) (pp : page_params) (page : Nat)
    (lp : Bool) (b : BufSt) (bytes : Nat) :
    ∀ c ∈ (ensureBuf o pp page lp b bytes).1, FlushCmd c = true := by
  unfold ensureBuf
  dsimp only
  split
  · split
    · simp
    · exact flush_cmds_flushOnly o pp page lp b
  · simp

theorem store_line_flushOnly (o : job_options) (pp : page_params) (page : Nat)
    (lp : Bool) (b : BufSt) (buf : List Nat) :
    ∀ c ∈ (RLE_store_line o pp page lp b buf).1, FlushCmd c = true := by
  unfold RLE_store_line
  dsimp only
  intro c hc
  split at hc
  · simp only [List.mem_append] at hc
    rcases hc with hc | hc
    · exact ensureBuf_flushOnly o pp page lp b _ c hc
    · exact flush_cmds_flushOnly o pp page lp _ c hc
  · exact ensureBuf_flushOnly o pp page lp b _ c hc

theorem store_empty_flushOnly (o : job_options) (pp : page_params) (page : Nat)
    (lp : Bool) (b : BufSt) (n mask : Nat) :
    ∀ c ∈ (RLE_store_empty_lines o pp page lp b n mask).1, FlushCmd c = true := by
  unfold RLE_store_empty_lines
  dsimp only
  intro c hc
  split at hc
  · exact ensureBuf_flushOnly o pp page lp _ _ c hc
  · exact ensureBuf_flushOnly o pp page lp _ _ c hc

theorem emit_rows_flushOnly (ctx : row_ctx) :
    ∀ (rows : List (List Nat)) (y : Nat) (st : BufSt × Nat),
      ∀ c ∈ (emit_rows ctx y rows st).1, FlushCmd c = true := by
  intro rows
  induction rows with
  | nil =>
    intro y st c hc
    obtain ⟨b, el⟩ := st
    simp [emit_rows] at hc
  | cons row rest ih =>
    intro y st c hc
    obtain ⟨b, el⟩ := st
    rw [emit_rows] at hc
    by_cases hskip : y < ctx.topSkip ∨ y + ctx.botSkip ≥ ctx.cupsHeight
    · rw [if_pos hskip] at hc
      exact ih (y + 1) (b, el) c hc
    · rw [if_neg hskip] at hc
      by_cases hne : (generate_emit_line (row.take ctx.buflen) ctx.o.bytes_per_line
          ctx.rpb ctx.shift ctx.doMirror ctx.xormask).2 = true
      · rw [if_pos hne] at hc
        dsimp only at hc
        simp only [List.mem_append] at hc
        rcases hc with (hc | hc) | hc
        · by_cases hel : el ≠ 0
          · rw [if_pos hel] at hc
            exact store_empty_flushOnly ctx.o ctx.pp ctx.page false b el
              ctx.xormask c hc
          · rw [if_neg hel] at hc
            simp at hc
        · exact store_line_flushOnly ctx.o ctx.pp ctx.page false _ _ c hc
        · exact ih (y + 1) _ c hc
      · rw [if_neg hne] at hc
        exact ih (y + 1) (b, el + 1) c hc

theorem emit_raster_lines_flushOnly (o : job_options) (pp : page_params)
    (page : Nat) (st : BufSt × Nat) :
    ∀ c ∈ (emit_raster_lines o pp page st).1, FlushCmd c = true := by
  unfold emit_raster_lines
  intro c hc
  simp only at hc
  exact emit_rows_flushOnly _ pp.rows 0 _ c hc

theorem countP_zero_of_flushOnly (p : Cmd → Bool)
    (hp : ∀ c, FlushCmd c = true → p c = false) (l : List Cmd)
    (h : ∀ c ∈ l, FlushCmd c = true) : l.countP p = 0 := by
  rw [List.countP_eq_zero]
  intro c hc
  simp only [Bool.not_eq_true]
  exact hp c (h c hc)

theorem isVarious_not_flush : ∀ c, FlushCmd c = true → isVarious c = false := by
  intro c hc
  cases c <;> simp_all [FlushCmd, isVarious]

theorem isAdvanced_not_flush : ∀ c, FlushCmd c = true → isAdvanced c = false := by
  intro c hc
  cases c <;> simp_all [FlushCmd, isAdvanced]

theorem isMarginCmd_not_flush : ∀ c, FlushCmd c = true → isMarginCmd c = false := by
  intro c hc
  cases c <;> simp_all [FlushCmd, isMarginCmd]

theorem isInitCmd_not_flush : ∀ c, FlushCmd c = true → isInitCmd c = false := by
  intro c hc
  cases c <;> simp_all [FlushCmd, isInitCmd]

theorem isEjectCmd_not_flush : ∀ c, FlushCmd c = true → isEjectCmd c = false := by
  intro c hc
  cases c <;> simp_all [FlushCmd, isEjectCmd]

theorem isFormfeed_not_flush : ∀ c, FlushCmd c = true → isFormfeed c = false := by
  intro c hc
  cases c <;> simp_all [FlushCmd, isFormfeed]

theorem countP_zero_of_tail (p : Cmd → Bool)
    (hp : ∀ c, FlushCmd c = true → p c = false)
    (hf : p Cmd.formfeedCmd = false) (he : p Cmd.ejectCmd = false)
    (l : List Cmd)
    (h : ∀ c ∈ l, FlushCmd c = true ∨ c = Cmd.formfeedCmd ∨ c = Cmd.ejectCmd) :
    l.countP p = 0 := by
  rw [List.countP_eq_zero]
  intro c hc
  simp only [Bool.not_eq_true]
  rcases h c hc with h1 | h1 | h1
  · exact hp c h1
  · subst h1
    exact hf
  · subst h1
    exact he

theorem jobCmds_counts (o : job_options) :
    (emit_job_cmds o).countP isVarious = 0 ∧
    (emit_job_cmds o).countP isAdvanced = 0 ∧
    (emit_job_cmds o).countP isMarginCmd = 0 ∧
    (emit_job_cmds o).countP isInitCmd = 1 ∧
    (emit_job_cmds o).countP isEjectCmd = 0 ∧
    (emit_job_cmds o).countP isFormfeed = 0 := by
  unfold emit_job_cmds
  refine ⟨?_, ?_, ?_, ?_, ?_, ?_⟩
  · simp [List.countP_append, List.countP_cons, apply_ite (List.countP isVarious),
      isVarious]
  · simp [List.countP_append, List.countP_cons, apply_ite (List.countP isAdvanced),
      isAdvanced]
  · simp [List.countP_append, List.countP_cons, apply_ite (List.countP isMarginCmd),
      isMarginCmd]
  · simp [List.countP_append, List.countP_cons, apply_ite (List.countP isInitCmd),
      isInitCmd]
  · simp [List.countP_append, List.countP_cons, apply_ite (List.countP isEjectCmd),
      isEjectCmd]
  · simp [List.countP_append, List.countP_cons, apply_ite (List.countP isFormfeed),
      isFormfeed]

theorem pageCmds_counts (o : job_options) (pp : page_params) :
    (emit_page_cmds o pp).countP isVarious = 1 ∧
    (emit_page_cmds o pp).countP isAdvanced = 1 ∧
    (emit_page_cmds o pp).countP isMarginCmd = 1 ∧
    (emit_page_cmds o pp).countP isInitCmd = 0 ∧
    (emit_page_cmds o pp).countP isEjectCmd = 0 ∧
    (emit_page_cmds o pp).countP isFormfeed = 0 := by
  unfold emit_page_cmds
  refine ⟨?_, ?_, ?_, ?_, ?_, ?_⟩
  · simp [List.countP_append, List.countP_cons, apply_ite (List.countP isVarious),
      isVarious]
  · simp [List.countP_append, List.countP_cons, apply_ite (List.countP isAdvanced),
      isAdvanced]
  · simp [List.countP_append, List.countP_cons, apply_ite (List.countP isMarginCmd),
      isMarginCmd]
  · simp [List.countP_append, List.countP_cons, apply_ite (List.countP isInitCmd),
      isInitCmd]
  · simp [List.countP_append, List.countP_cons, apply_ite (List.countP isEjectCmd),
      isEjectCmd]
  · simp [List.countP_append, List.countP_cons, apply_ite (List.countP isFormfeed),
      isFormfeed]

theorem process_pages_cons (o : job_options) (pp : page_params)
    (rest : List page_params) (b : BufSt) (el : Nat) (page : Nat) :
    ∃ (mid : List Cmd) (st2 : BufSt × Nat),
      (∀ c ∈ mid, FlushCmd c = true) ∧
      process_pages o page (pp :: rest) (b, el) =
        (if page = 1 then emit_job_cmds o ++ emit_page_cmds o pp else []) ++ mid ++
        (if rest.isEmpty then [Cmd.ejectCmd]
         else (if o.concat_pages then [] else [Cmd.formfeedCmd]) ++
           process_pages o (page + 1) rest st2) := by
  rw [process_pages]
  dsimp only
  set r1 := emit_raster_lines o pp page (b, el) with hr1
  by_cases hl : rest.isEmpty = true
  · rw [if_neg (not_not_intro hl)]
    by_cases hcp : o.concat_pages = true
    · rw [if_neg (not_not_intro hcp)]
      set s2 := RLE_store_empty_lines o pp page rest.isEmpty r1.2.1 pp.botConcatPx
        (if pp.negative = true then 255 else 0) with hs2
      set s3 := flush_rle_buffer o pp page rest.isEmpty s2.2 with hs3
      refine ⟨r1.1 ++ s2.1 ++ s3.1, ((⟨[], 0, 0⟩ : BufSt), 0), ?_, ?_⟩
      · intro c hc
        simp only [List.append_assoc, List.mem_append] at hc
        rcases hc with hc | hc | hc
        · exact emit_raster_lines_flushOnly o pp page (b, el) c hc
        · rw [hs2] at hc
          exact store_empty_flushOnly o pp page _ _ _ _ c hc
        · rw [hs3] at hc
          exact flush_cmds_flushOnly o pp page _ _ c hc
      · rw [if_pos hl]
        simp [List.append_assoc]
    · rw [if_pos hcp]
      set s2 := RLE_store_empty_lines o pp page rest.isEmpty r1.2.1 r1.2.2
        (if pp.negative = true then 255 else 0) with hs2
      set s3 := flush_rle_buffer o pp page rest.isEmpty s2.2 with hs3
      refine ⟨r1.1 ++ s2.1 ++ s3.1, ((⟨[], 0, 0⟩ : BufSt), 0), ?_, ?_⟩
      · intro c hc
        simp only [List.append_assoc, List.mem_append] at hc
        rcases hc with hc | hc | hc
        · exact emit_raster_lines_flushOnly o pp page (b, el) c hc
        · rw [hs2] at hc
          exact store_empty_flushOnly o pp page _ _ _ _ c hc
        · rw [hs3] at hc
          exact flush_cmds_flushOnly o pp page _ _ c hc
      · rw [if_pos hl]
        simp [List.append_assoc]
  · rw [if_pos hl]
    by_cases hcp : o.concat_pages = true
    · rw [if_neg (not_not_intro hcp)]
      refine ⟨r1.1, (r1.2.1, r1.2.2), ?_, ?_⟩
      · intro c hc
        exact emit_raster_lines_flushOnly o pp page (b, el) c hc
      · rw [if_neg hl, if_pos hcp]
        simp [List.append_assoc]
    · rw [if_pos hcp]
      set s2 := RLE_store_empty_lines o pp page rest.isEmpty r1.2.1 r1.2.2
        (if pp.negative = true then 255 else 0) with hs2
      set s3 := flush_rle_buffer o pp page rest.isEmpty s2.2 with hs3
      refine ⟨r1.1 ++ s2.1 ++ s3.1, (s3.2, 0), ?_, ?_⟩
      · intro c hc
        simp only [List.append_assoc, List.mem_append] at hc
        rcases hc with hc | hc | hc
        · exact emit_raster_lines_flushOnly o pp page (b, el) c hc
        · rw [hs2] at hc
          exact store_empty_flushOnly o pp page _ _ _ _ c hc
        · rw [hs3] at hc
          exact flush_cmds_flushOnly o pp page _ _ c hc
      · rw [if_neg hl, if_neg hcp]
        simp [List.append_assoc]

theorem process_pages_tail_mem (o : job_options) :
    ∀ (pages : List page_params) (page : Nat) (st : BufSt × Nat), 2 ≤ page →
      ∀ c ∈ process_pages o page pages st,
        FlushCmd c = true ∨ c = Cmd.formfeedCmd ∨ c = Cmd.ejectCmd := by
  intro pages
  induction pages with
  | nil =>
    intro page st h2 c hc
    obtain ⟨b, el⟩ := st
    simp [process_pages] at hc
  | cons pp rest ih =>
    intro page st h2 c hc
    obtain ⟨b, el⟩ := st
    obtain ⟨mid, st2, hmid, heq⟩ := process_pages_cons o pp rest b el page
    rw [heq] at hc
    rw [if_neg (by omega : ¬ page = 1)] at hc
    simp only [List.nil_append, List.mem_append] at hc
    rcases hc with hc | hc
    · exact Or.inl (hmid c hc)
    · by_cases hl : rest.isEmpty = true
      · rw [if_pos hl] at hc
        simp only [List.mem_singleton] at hc
        subst hc
        exact Or.inr (Or.inr rfl)
      · rw [if_neg hl] at hc
        simp only [List.mem_append] at hc
        rcases hc with hc | hc
        · by_cases hcp : o.concat_pages = true
          · rw [if_pos hcp] at hc
            simp at hc
          · rw [if_neg hcp] at hc
            simp only [List.mem_singleton] at hc
            subst hc
            exact Or.inr (Or.inl rfl)
        · exact ih (page + 1) st2 (by omega) c hc

theorem process_pages_terminators (o : job_options) (hcat : o.concat_pages = false) :
    ∀ (pages : List page_params) (page : Nat) (st : BufSt × Nat), pages ≠ [] →
      ((process_pages o page pages st).countP isEjectCmd = 1 ∧
       (process_pages o page pages st).countP isFormfeed = pages.length - 1 ∧
       (process_pages o page pages st).getLast? = some Cmd.ejectCmd) := by
  intro pages
  induction pages with
  | nil =>
    intro page st h
    exact absurd rfl h
  | cons pp rest ih =>
    intro page st _
    obtain ⟨b, el⟩ := st
    obtain ⟨mid, st2, hmid, heq⟩ := process_pages_cons o pp rest b el page
    rw [heq]
    have hpre_e : (if page = 1 then emit_job_cmds o ++ emit_page_cmds o pp
        else []).countP isEjectCmd = 0 := by
      split
      · simp [List.countP_append, (jobCmds_counts o).2.2.2.2.1,
          (pageCmds_counts o pp).2.2.2.2.1]
      · simp
    have hpre_f : (if page = 1 then emit_job_cmds o ++ emit_page_cmds o pp
        else []).countP isFormfeed = 0 := by
      split
      · simp [List.countP_append, (jobCmds_counts o).2.2.2.2.2,
          (pageCmds_counts o pp).2.2.2.2.2]
      · simp
    have hmid_e : mid.countP isEjectCmd = 0 :=
      countP_zero_of_flushOnly _ isEjectCmd_not_flush _ hmid
    have hmid_f : mid.countP isFormfeed = 0 :=
      countP_zero_of_flushOnly _ isFormfeed_not_flush _ hmid
    by_cases hl : rest.isEmpty = true
    · rw [if_pos hl]
      refine ⟨?_, ?_, ?_⟩
      · simp [List.countP_append, hpre_e, hmid_e, List.countP_cons, isEjectCmd]
      · have hre : rest = [] := by
          cases rest with
          | nil => rfl
          | cons q qs => simp at hl
        subst hre
        simp [List.countP_append, hpre_f, hmid_f, List.countP_cons, isFormfeed]
      · rw [List.getLast?_concat]
    · rw [if_neg hl, if_neg (by simp [hcat] : ¬ o.concat_pages = true)]
      have hrne : rest ≠ [] := by
        intro h0
        subst h0
        simp at hl
      obtain ⟨ihe, ihf, ihl⟩ := ih (page + 1) st2 hrne
      have hlen : 1 ≤ rest.length := List.length_pos.mpr hrne
      have hrecne : process_pages o (page + 1) rest st2 ≠ [] := by
        intro h0
        rw [h0] at ihl
        simp at ihl
      refine ⟨?_, ?_, ?_⟩
      · simp only [List.countP_append, hpre_e, hmid_e, List.countP_cons,
          List.countP_nil, ihe]
        simp [isEjectCmd]
      · simp only [List.countP_append, hpre_f, hmid_f, List.countP_cons,
          List.countP_nil, ihf]
        have : isFormfeed Cmd.formfeedCmd = true := rfl
        simp only [this, if_pos]
        simp only [List.length_cons]
        omega
      · simp only [List.getLast?_append, ihl]
        rw [← List.singleton_append]
        simp [List.getLast?_append, ihl]

theorem isComprSelect_not_flush : ∀ c, FlushCmd c = true → isComprSelect c = false := by
  intro c hc
  cases c <;> simp_all [FlushCmd, isComprSelect]

theorem jobCmds_compr (o : job_options) :
    (emit_job_cmds o).countP isComprSelect = 0 := by
  unfold emit_job_cmds
  simp [List.countP_append, List.countP_cons,
    apply_ite (List.countP isComprSelect), isComprSelect]

theorem pageCmds_compr (o : job_options) (pp : page_params)
    (h : o.pixel_xfer = Xfer.RLE) :
    (emit_page_cmds o pp).countP isComprSelect = 1 := by
  unfold emit_page_cmds
  simp [List.countP_append, List.countP_cons,
    apply_ite (List.countP isComprSelect), isComprSelect, h]

/-- C6: the claim that every page of a multi-page job receives the
page-open command group is false — `process_rasterdata` emits the job and
page commands only when `page == 1`, so a two-page job contains a single
various-mode command even though both pages contribute raster data. -/
theorem second_page_lacks_page_open_cmds :
    (process_rasterdata optsBase [pageBase, pageBase]).countP isVarious = 1 ∧
    2 ≤ (process_rasterdata optsBase [pageBase, pageBase]).countP isRasterCmd := by
  decide

/-- C6 (amended): in any nonempty job the page-open command group
(various mode, advanced mode, margin, and — under RLE transfer — the
compression select) is emitted exactly once, for the first page only;
later pages get raster data with no page-open group. -/
theorem page_open_cmds_only_first (o : job_options) (pp : page_params)
    (rest : List page_params) :
    (process_rasterdata o (pp :: rest)).countP isVarious = 1 ∧
    (process_rasterdata o (pp :: rest)).countP isAdvanced = 1 ∧
    (process_rasterdata o (pp :: rest)).countP isMarginCmd = 1 ∧
    (o.pixel_xfer = Xfer.RLE →
      (process_rasterdata o (pp :: rest)).countP isComprSelect = 1) := by
  unfold process_rasterdata
  obtain ⟨mid, st2, hmid, heq⟩ := process_pages_cons o pp rest ⟨[], 0, 0⟩ 0 1
  rw [heq, if_pos rfl]
  have hj := jobCmds_counts o
  have hp := pageCmds_counts o pp
  have hjc := jobCmds_compr o
  have hmv := countP_zero_of_flushOnly _ isVarious_not_flush _ hmid
  have hma := countP_zero_of_flushOnly _ isAdvanced_not_flush _ hmid
  have hmm := countP_zero_of_flushOnly _ isMarginCmd_not_flush _ hmid
  have hmc := countP_zero_of_flushOnly _ isComprSelect_not_flush _ hmid
  by_cases hl : rest.isEmpty = true
  · rw [if_pos hl]
    refine ⟨?_, ?_, ?_, fun hx => ?_⟩
    · simp [List.countP_append, List.countP_cons, hj.1, hj.2.1, hj.2.2.1, hp.1,
      hp.2.1, hp.2.2.1, hjc, hmv, hma, hmm, hmc,
      isVarious, isAdvanced, isMarginCmd, isComprSelect]
    · simp [List.countP_append, List.countP_cons, hj.1, hj.2.1, hj.2.2.1, hp.1,
      hp.2.1, hp.2.2.1, hjc, hmv, hma, hmm, hmc,
      isVarious, isAdvanced, isMarginCmd, isComprSelect]
    · simp [List.countP_append, List.countP_cons, hj.1, hj.2.1, hj.2.2.1, hp.1,
      hp.2.1, hp.2.2.1, hjc, hmv, hma, hmm, hmc,
      isVarious, isAdvanced, isMarginCmd, isComprSelect]
    · simp [List.countP_append, List.countP_cons, hj.1, hj.2.1, hj.2.2.1, hp.1,
      hp.2.1, hp.2.2.1, hjc, hmv, hma, hmm, hmc,
      isVarious, isAdvanced, isMarginCmd, isComprSelect, pageCmds_compr o pp hx]
  · rw [if_neg hl]
    have htail := process_pages_tail_mem o rest (1 + 1) st2 (by omega)
    have h2v := countP_zero_of_tail _ isVarious_not_flush rfl rfl _ htail
    have h2a := countP_zero_of_tail _ isAdvanced_not_flush rfl rfl _ htail
    have h2m := countP_zero_of_tail _ isMarginCmd_not_flush rfl rfl _ htail
    have h2c := countP_zero_of_tail _ isComprSelect_not_flush rfl rfl _ htail
    by_cases hcp : o.concat_pages = true
    · rw [if_pos hcp]
      refine ⟨?_, ?_, ?_, fun hx => ?_⟩
      · simp [List.countP_append, List.countP_cons, hj.1, hj.2.1, hj.2.2.1, hp.1,
        hp.2.1, hp.2.2.1, hjc, hmv, hma, hmm, hmc, h2v, h2a, h2m, h2c,
        isVarious, isAdvanced, isMarginCmd, isComprSelect]
      · simp [List.countP_append, List.countP_cons, hj.1, hj.2.1, hj.2.2.1, hp.1,
        hp.2.1, hp.2.2.1, hjc, hmv, hma, hmm, hmc, h2v, h2a, h2m, h2c,
        isVarious, isAdvanced, isMarginCmd, isComprSelect]
      · simp [List.countP_append, List.countP_cons, hj.1, hj.2.1, hj.2.2.1, hp.1,
        hp.2.1, hp.2.2.1, hjc, hmv, hma, hmm, hmc, h2v, h2a, h2m, h2c,
        isVarious, isAdvanced, isMarginCmd, isComprSelect]
      · simp [List.countP_append, List.countP_cons, hj.1, hj.2.1, hj.2.2.1, hp.1,
        hp.2.1, hp.2.2.1, hjc, hmv, hma, hmm, hmc, h2v, h2a, h2m, h2c,
        isVarious, isAdvanced, isMarginCmd, isComprSelect, pageCmds_compr o pp hx]
    · rw [if_neg hcp]
      refine ⟨?_, ?_, ?_, fun hx => ?_⟩
      · simp [List.countP_append, List.countP_cons, hj.1, hj.2.1, hj.2.2.1, hp.1,
        hp.2.1, hp.2.2.1, hjc, hmv, hma, hmm, hmc, h2v, h2a, h2m, h2c,
        isVarious, isAdvanced, isMarginCmd, isComprSelect]
      · simp [List.countP_append, List.countP_cons, hj.1, hj.2.1, hj.2.2.1, hp.1,
        hp.2.1, hp.2.2.1, hjc, hmv, hma, hmm, hmc, h2v, h2a, h2m, h2c,
        isVarious, isAdvanced, isMarginCmd, isComprSelect]
      · simp [List.countP_append, List.countP_cons, hj.1, hj.2.1, hj.2.2.1, hp.1,
        hp.2.1, hp.2.2.1, hjc, hmv, hma, hmm, hmc, h2v, h2a, h2m, h2c,
        isVarious, isAdvanced, isMarginCmd, isComprSelect]
      · simp [List.countP_append, List.countP_cons, hj.1, hj.2.1, hj.2.2.1, hp.1,
        hp.2.1, hp.2.2.1, hjc, hmv, hma, hmm, hmc, h2v, h2a, h2m, h2c,
        isVarious, isAdvanced, isMarginCmd, isComprSelect, pageCmds_compr o pp hx]

theorem page_open_cmds_only_first_witness :
    (process_rasterdata optsBase [pageBase]).countP isVarious = 1 ∧
    (process_rasterdata optsBase [pageBase]).countP isComprSelect = 1 :=
  ⟨(page_open_cmds_only_first optsBase pageBase []).1,
   (page_open_cmds_only_first optsBase pageBase []).2.2.2 rfl⟩

/-- C7: with `concat-pages` enabled the sequencer emits no `0x0c` form
feed between pages at all, so the claimed count of pages − 1 fails for a
two-page concatenated job (0 form feeds instead of 1); the single final
`0x1a` is still emitted. -/
theorem concat_job_has_no_formfeed :
    (process_rasterdata { optsBase with concat_pages := true }
        [pageBase, pageBase]).countP isFormfeed = 0 ∧
    (process_rasterdata { optsBase with concat_pages := true }
        [pageBase, pageBase]).countP isEjectCmd = 1 := by
  decide

/-- C7 (amended): for a nonempty job without page concatenation, `ESC @`
appears exactly once (as the second command, right after the 350-byte
zero pad), `0x1a` exactly once and as the final command, and `0x0c`
exactly pages − 1 times. -/
theorem job_terminator_counts (o : job_options) (pp : page_params)
    (rest : List page_params) (hcat : o.concat_pages = false) :
    (process_rasterdata o (pp :: rest)).countP isInitCmd = 1 ∧
    (process_rasterdata o (pp :: rest)).countP isEjectCmd = 1 ∧
    (process_rasterdata o (pp :: rest)).countP isFormfeed = rest.length ∧
    (process_rasterdata o (pp :: rest)).getLast? = some Cmd.ejectCmd ∧
    ∃ rest2, process_rasterdata o (pp :: rest)
      = Cmd.zeros 350 :: Cmd.initCmd :: rest2 := by
  unfold process_rasterdata
  obtain ⟨mid, st2, hmid, heq⟩ := process_pages_cons o pp rest ⟨[], 0, 0⟩ 0 1
  have hterm := process_pages_terminators o hcat (pp :: rest) 1 (⟨[], 0, 0⟩, 0)
    (List.cons_ne_nil pp rest)
  have hmi : mid.countP isInitCmd = 0 :=
    countP_zero_of_flushOnly _ isInitCmd_not_flush _ hmid
  have hji := (jobCmds_counts o).2.2.2.1
  have hpi := (pageCmds_counts o pp).2.2.2.1
  refine ⟨?_, hterm.1, ?_, hterm.2.2, ?_⟩
  · rw [heq, if_pos rfl]
    by_cases hl : rest.isEmpty = true
    · rw [if_pos hl]
      simp [List.countP_append, List.countP_cons, hji, hpi, hmi, isInitCmd]
    · rw [if_neg hl, if_neg (by simp [hcat] : ¬ o.concat_pages = true)]
      have htail := process_pages_tail_mem o rest (1 + 1) st2 (by omega)
      have h2i := countP_zero_of_tail _ isInitCmd_not_flush rfl rfl _ htail
      simp [List.countP_append, List.countP_cons, hji, hpi, hmi, h2i, isInitCmd]
  · have h := hterm.2.1
    simp only [List.length_cons, Nat.add_sub_cancel] at h
    exact h
  · rw [heq, if_pos rfl]
    simp only [emit_job_cmds, List.append_assoc, List.cons_append, List.nil_append]
    exact ⟨_, rfl⟩

theorem job_terminator_counts_witness :
    (process_rasterdata optsBase [pageBase]).countP isInitCmd = 1 ∧
    (process_rasterdata optsBase [pageBase]).countP isEjectCmd = 1 ∧
    (process_rasterdata optsBase [pageBase]).countP isFormfeed = 0 ∧
    (process_rasterdata optsBase [pageBase]).getLast? = some Cmd.ejectCmd :=
  have h := job_terminator_counts optsBase pageBase [] rfl
  ⟨h.1, h.2.1, h.2.2.1, h.2.2.2.1⟩

/-- C3: `flush_rle_buffer` with `lines_waiting == 0` emits nothing and
changes no state; with lines waiting, label-preamble set and RLE
transfer it emits exactly one print-information (`ESC i z`) command
whose lines field equals the current `lines_waiting`, immediately
followed by one raster packet per stored line (their number equals the
lines field, using the buffer invariant that `lines_waiting` matches the
stored packet count), and it resets the arena and `lines_waiting` to
zero. -/
theorem flush_rle_buffer_spec (o : job_options) (pp : page_params) (page : Nat)
    (lastPage : Bool) (b : BufSt)
    (hinv : b.lines = b.packets.length) :
    (b.lines = 0 → flush_rle_buffer o pp page lastPage b = ([], b)) ∧
    (0 < b.lines → o.label_preamble = true → o.pixel_xfer = Xfer.RLE →
      flush_rle_buffer o pp page lastPage b =
        (emit_quality_rollfed_size o pp page lastPage b.lines
            :: b.packets.map Cmd.rasterCmd,
          { b with packets := [], lines := 0 }) ∧
      (b.packets.map Cmd.rasterCmd).countP isRasterCmd = b.lines ∧
      ∃ v1 v2 v3 v4 w, emit_quality_rollfed_size o pp page lastPage b.lines =
        Cmd.printInfoCmd v1 v2 v3 v4 b.lines w) := by
  constructor
  · intro h0
    unfold flush_rle_buffer
    rw [if_pos h0]
  · intro hpos hpre hx
    refine ⟨?_, ?_, ?_⟩
    · unfold flush_rle_buffer
      rw [if_neg (by omega : ¬ b.lines = 0)]
      dsimp only
      rw [if_pos hpre, hx]
      dsimp only
      simp
    · have hc : (b.packets.map Cmd.rasterCmd).countP isRasterCmd
          = b.packets.length := by
        simp [List.countP_map, Function.comp, isRasterCmd]
      omega
    · unfold emit_quality_rollfed_size
      exact ⟨_, _, _, _, _, rfl⟩

theorem flush_rle_buffer_spec_witness :
    flush_rle_buffer { optsBase with label_preamble := true } pageBase 1 false
        ⟨[Packet.z], 1, 0⟩ =
      (Cmd.printInfoCmd 4 0 24 0 1 0 :: [Cmd.rasterCmd Packet.z],
        ⟨[], 0, 0⟩) :=
  ((flush_rle_buffer_spec { optsBase with label_preamble := true } pageBase 1
      false ⟨[Packet.z], 1, 0⟩ rfl).2 (by decide) rfl rfl).1

theorem takeWhile_zeros (k : Nat) (c : Nat) (hc : c ≠ 0) (more : List Nat) :
    (List.replicate k 0 ++ c :: more).takeWhile (fun x => x = 0)
      = List.replicate k 0 := by
  induction k with
  | zero => simp [List.takeWhile_cons, hc]
  | succ n ih => simp [List.replicate_succ, List.takeWhile_cons, ih]

theorem explain_nil_done (m : CMode) : explain ⟨m, false⟩ ([] : List Nat) = [] := by
  rw [explain]
  simp

theorem explain_zeros (st : DecSt) (n : Nat) (hn : 1 ≤ n) (c : Nat) (hc : c ≠ 0)
    (more : List Nat) :
    explain st (List.replicate n 0 ++ c :: more)
      = Event.reset n :: explain ⟨st.compression, false⟩ (c :: more) := by
  obtain ⟨k, rfl⟩ : ∃ k, n = k + 1 := ⟨n - 1, by omega⟩
  rw [List.replicate_succ, List.cons_append]
  rw [explain]
  simp only [explainStep, takeWhile_zeros k c hc more, List.length_replicate]
  rw [if_neg (show ¬ (k : Nat) = (List.replicate k (0 : Nat)
      ++ c :: more).length by
    simp only [List.length_append, List.length_replicate, List.length_cons]
    omega)]
  dsimp only
  have hdrop : (0 :: (List.replicate k 0 ++ c :: more)).drop (max (k + 1) 1)
      = c :: more := by
    have hm : max (k + 1) 1 = k + 1 := by omega
    rw [hm, List.drop_succ_cons]
    have h2 := List.drop_left (List.replicate k (0 : Nat)) (c :: more)
    rwa [List.length_replicate] at h2
  rw [hdrop]
  rfl

theorem explain_init (st : DecSt) (rest : List Nat) :
    explain st (27 :: 64 :: rest)
      = Event.initEvt :: explain ⟨st.compression, true⟩ rest := by
  rw [explain]
  simp [explainStep, explainEsc]

theorem explain_formfeed (m : CMode) (rest : List Nat) :
    explain ⟨m, true⟩ (12 :: rest)
      = Event.printEvt :: explain ⟨m, true⟩ rest := by
  rw [explain]
  simp [explainStep, preInit]

theorem explain_eject (m : CMode) (rest : List Nat) :
    explain ⟨m, true⟩ (26 :: rest)
      = Event.endOfJobEvt :: explain ⟨m, false⟩ rest := by
  rw [explain]
  simp [explainStep, preInit]

theorem explain_escI_step (st : DecSt) (hinit : st.initialized = true)
    (r : List Nat) (evs : List Event) (st2 : DecSt) (k : Nat)
    (h : explainEscI st r = (evs, some (st2, k))) :
    explain st (27 :: 105 :: r) = evs ++ explain st2 (r.drop k) := by
  rw [explain]
  simp only [explainStep, explainEsc, h, preInit, hinit, if_true]
  have hm : max (k + 1 + 1) 1 = k + 2 := by omega
  rw [hm]
  simp only [List.drop_succ_cons]
  rfl

theorem explain_statusNotif (m : CMode) (v : Nat) (rest : List Nat) :
    explain ⟨m, true⟩ (27 :: 105 :: 33 :: v :: rest)
      = Event.statusNotifEvt v :: explain ⟨m, true⟩ rest := by
  have h := explain_escI_step ⟨m, true⟩ rfl (33 :: v :: rest)
    [Event.statusNotifEvt v] ⟨m, true⟩ 2 rfl
  simpa using h

theorem explain_switchLegacy (m : CMode) (v : Nat) (rest : List Nat) :
    explain ⟨m, true⟩ (27 :: 105 :: 82 :: v :: rest)
      = Event.switchModeEvt v true (!(v == 0 || v == 1 || v == 3))
          :: explain ⟨m, true⟩ rest := by
  have h := explain_escI_step ⟨m, true⟩ rfl (82 :: v :: rest)
    [Event.switchModeEvt v true (!(v == 0 || v == 1 || v == 3))] ⟨m, true⟩ 2 rfl
  simpa using h

theorem explain_switchMode (m : CMode) (v : Nat) (rest : List Nat) :
    explain ⟨m, true⟩ (27 :: 105 :: 97 :: v :: rest)
      = Event.switchModeEvt v false (!(v == 0 || v == 1 || v == 3))
          :: explain ⟨m, true⟩ rest := by
  have h := explain_escI_step ⟨m, true⟩ rfl (97 :: v :: rest)
    [Event.switchModeEvt v false (!(v == 0 || v == 1 || v == 3))] ⟨m, true⟩ 2 rfl
  simpa using h

theorem explain_various (m : CMode) (v : Nat) (rest : List Nat) :
    explain ⟨m, true⟩ (27 :: 105 :: 77 :: v :: rest)
      = Event.variousModeEvt v :: explain ⟨m, true⟩ rest := by
  have h := explain_escI_step ⟨m, true⟩ rfl (77 :: v :: rest)
    [Event.variousModeEvt v] ⟨m, true⟩ 2 rfl
  simpa using h

theorem explain_advanced (m : CMode) (v : Nat) (rest : List Nat) :
    explain ⟨m, true⟩ (27 :: 105 :: 75 :: v :: rest)
      = Event.advancedModeEvt v :: explain ⟨m, true⟩ rest := by
  have h := explain_escI_step ⟨m, true⟩ rfl (75 :: v :: rest)
    [Event.advancedModeEvt v] ⟨m, true⟩ 2 rfl
  simpa using h

theorem explain_cutEvery (m : CMode) (v : Nat) (rest : List Nat) :
    explain ⟨m, true⟩ (27 :: 105 :: 65 :: v :: rest)
      = Event.cutEveryEvt v :: explain ⟨m, true⟩ rest := by
  have h := explain_escI_step ⟨m, true⟩ rfl (65 :: v :: rest)
    [Event.cutEveryEvt v] ⟨m, true⟩ 2 rfl
  simpa using h

theorem explain_margin (m : CMode) (a b2 : Nat) (rest : List Nat) :
    explain ⟨m, true⟩ (27 :: 105 :: 100 :: a :: b2 :: rest)
      = Event.marginEvt (a + (b2 <<< 8)) :: explain ⟨m, true⟩ rest := by
  have h := explain_escI_step ⟨m, true⟩ rfl (100 :: a :: b2 :: rest)
    [Event.marginEvt (a + (b2 <<< 8))] ⟨m, true⟩ 3 rfl
  simpa using h

set_option maxHeartbeats 1600000 in
theorem explain_legacyHires (m : CMode) (b0 b1 b2 b3 b4 : Nat) (rest : List Nat) :
    explain ⟨m, true⟩ (27 :: 105 :: 99 :: b0 :: b1 :: b2 :: b3 :: b4 :: rest)
      = Event.legacyHiresEvt [b0, b1, b2, b3, b4] :: explain ⟨m, true⟩ rest := by
  have hE : explainEscI ⟨m, true⟩ (99 :: b0 :: b1 :: b2 :: b3 :: b4 :: rest)
      = ([Event.legacyHiresEvt [b0, b1, b2, b3, b4]], some (⟨m, true⟩, 6)) := by
    rw [explainEscI]
    dsimp only
    rw [if_pos (by simp : (5 : Nat) ≤ (b0 :: b1 :: b2 :: b3 :: b4 :: rest).length)]
    simp
  have h := explain_escI_step ⟨m, true⟩ rfl (99 :: b0 :: b1 :: b2 :: b3 :: b4 :: rest)
    [Event.legacyHiresEvt [b0, b1, b2, b3, b4]] ⟨m, true⟩ 6 hE
  simpa using h

set_option maxHeartbeats 1600000 in
theorem explain_printInfo (m : CMode) (d0 d1 d2 d3 d4 d5 d6 d7 d8 d9 : Nat)
    (rest : List Nat) :
    explain ⟨m, true⟩ (27 :: 105 :: 122 :: d0 :: d1 :: d2 :: d3 :: d4 :: d5
        :: d6 :: d7 :: d8 :: d9 :: rest)
      = Event.printInfoEvt [d0, d1, d2, d3, d4, d5, d6, d7, d8, d9]
          (d4 + (d5 <<< 8) + (d6 <<< 16) + (d7 <<< 24))
          :: explain ⟨m, true⟩ rest := by
  have hE : explainEscI ⟨m, true⟩ (122 :: d0 :: d1 :: d2 :: d3 :: d4 :: d5 :: d6
        :: d7 :: d8 :: d9 :: rest)
      = ([Event.printInfoEvt [d0, d1, d2, d3, d4, d5, d6, d7, d8, d9]
          (d4 + (d5 <<< 8) + (d6 <<< 16) + (d7 <<< 24))], some (⟨m, true⟩, 11)) := by
    rw [explainEscI]
    dsimp only
    rw [if_pos (by simp : (10 : Nat) ≤ (d0 :: d1 :: d2 :: d3 :: d4 :: d5 :: d6
        :: d7 :: d8 :: d9 :: rest).length)]
    simp
  have h := explain_escI_step ⟨m, true⟩ rfl (122 :: d0 :: d1 :: d2 :: d3 :: d4
      :: d5 :: d6 :: d7 :: d8 :: d9 :: rest)
    [Event.printInfoEvt [d0, d1, d2, d3, d4, d5, d6, d7, d8, d9]
      (d4 + (d5 <<< 8) + (d6 <<< 16) + (d7 <<< 24))] ⟨m, true⟩ 11 hE
  simpa using h

theorem explain_selectCompr2 (m : CMode) (rest : List Nat) :
    explain ⟨m, true⟩ (77 :: 2 :: rest)
      = Event.selectComprEvt 2 false :: explain ⟨CMode.tiff, true⟩ rest := by
  rw [explain]
  simp [explainStep, preInit]

theorem explain_density_fatal (m : CMode) (rest : List Nat) :
    explain ⟨m, true⟩ (27 :: 105 :: 68 :: rest) = [Event.fatalEvt] := by
  rw [explain]
  have hE : explainEscI ⟨m, true⟩ (68 :: rest)
      = ([Event.fatalEvt], none) := rfl
  simp [explainStep, explainEsc, hE, preInit]

theorem and255_eq_mod (a : Nat) : a &&& 255 = a % 256 := by
  have h := Nat.and_pow_two_sub_one_eq_mod a 8
  norm_num at h
  exact h

theorem shiftRight8_eq_div (a : Nat) : a >>> 8 = a / 256 := by
  rw [Nat.shiftRight_eq_div_pow]

theorem shiftLeft8_eq_mul (a : Nat) : a <<< 8 = a * 256 := by
  rw [Nat.shiftLeft_eq]

theorem lohi_eq (len : Nat) (h : len < 65536) :
    (len &&& 255) + (((len >>> 8) &&& 255) <<< 8) = len := by
  rw [and255_eq_mod, shiftRight8_eq_div, and255_eq_mod, shiftLeft8_eq_mul]
  omega

theorem hi_eq_zero (len : Nat) (h : len ≤ 255) : (len >>> 8) &&& 255 = 0 := by
  rw [shiftRight8_eq_div, and255_eq_mod]
  omega

theorem lo_eq (len : Nat) (h : len ≤ 255) : len &&& 255 = len := by
  rw [and255_eq_mod]
  omega

theorem explain_raster_gq (body buf rest : List Nat)
    (hruns : Runs body buf) (hlen : body.length ≤ 128) :
    explain ⟨CMode.tiff, true⟩ ((Packet.enc true body).bytes ++ rest)
      = Event.rasterLineEvt buf :: explain ⟨CMode.tiff, true⟩ rest := by
  have hdec := decompressTiff_runs hruns rest
  have hER : explainRaster ⟨CMode.tiff, true⟩ body.length (body ++ rest)
      = ([Event.rasterLineEvt buf], some (⟨CMode.tiff, true⟩, body.length)) := by
    unfold explainRaster
    rw [if_neg (by omega : ¬ 128 < body.length)]
    simp [checkCompression, hdec]
  have hb : (Packet.enc true body).bytes
      = 103 :: 0 :: body.length :: body := by
    simp [Packet.bytes, hi_eq_zero body.length (by omega),
      lo_eq body.length (by omega)]
  rw [hb]
  simp only [List.cons_append]
  rw [explain]
  simp only [explainStep, hER, preInit, if_true, if_false]
  simp only [ne_eq, not_true_eq_false, if_false, List.nil_append]
  have hdrop : (103 :: 0 :: body.length :: (body ++ rest)).drop
      (max (body.length + 3) 1) = rest := by
    have hm : max (body.length + 3) 1 = body.length + 3 := by omega
    rw [hm]
    simp only [List.drop_succ_cons]
    simp
  simp [hdrop]

theorem explain_raster_gG (body buf rest : List Nat)
    (hruns : Runs body buf) (hlen : body.length ≤ 128) :
    explain ⟨CMode.tiff, true⟩ ((Packet.enc false body).bytes ++ rest)
      = Event.rasterLineEvt buf :: explain ⟨CMode.tiff, true⟩ rest := by
  have hdec := decompressTiff_runs hruns rest
  have hu : (body.length &&& 255) + (((body.length >>> 8) &&& 255) <<< 8)
      = body.length := lohi_eq _ (by omega)
  have hER : explainRaster ⟨CMode.tiff, true⟩ body.length (body ++ rest)
      = ([Event.rasterLineEvt buf], some (⟨CMode.tiff, true⟩, body.length)) := by
    unfold explainRaster
    rw [if_neg (by omega : ¬ 128 < body.length)]
    simp [checkCompression, hdec]
  have hb : (Packet.enc false body).bytes
      = 71 :: (body.length &&& 255) :: ((body.length >>> 8) &&& 255) :: body := by
    simp [Packet.bytes]
  rw [hb]
  simp only [List.cons_append]
  rw [explain]
  simp only [explainStep, hu, hER, preInit, if_true, if_false]
  simp only [ne_eq, not_true_eq_false, if_false, List.nil_append]
  have hdrop : (71 :: (body.length &&& 255) :: ((body.length >>> 8) &&& 255)
      :: (body ++ rest)).drop (max (body.length + 3) 1) = rest := by
    have hm : max (body.length + 3) 1 = body.length + 3 := by omega
    rw [hm]
    simp only [List.drop_succ_cons]
    simp
  simp [hdrop]

theorem explain_raster_z (rest : List Nat) :
    explain ⟨CMode.tiff, true⟩ (Packet.z.bytes ++ rest)
      = Event.zeroRasterEvt false :: explain ⟨CMode.tiff, true⟩ rest := by
  simp only [Packet.bytes, List.cons_append, List.nil_append]
  rw [explain]
  simp [explainStep, preInit, checkCompression]

theorem cmdStreamBytes_cons (c : Cmd) (rest : List Cmd) :
    cmdStreamBytes (c :: rest) = c.bytes ++ cmdStreamBytes rest := by
  simp [cmdStreamBytes]

theorem rasterEvents_cons_other (e : Event) (tail : List Event)
    (h1 : ∀ pl, e ≠ Event.rasterLineEvt pl)
    (h2 : ∀ b, e ≠ Event.zeroRasterEvt b) :
    rasterEvents (e :: tail) = rasterEvents tail := by
  cases e <;>
    first
      | exact absurd rfl (h1 _)
      | exact absurd rfl (h2 _)
      | simp [rasterEvents]

theorem rasterEvents_cons_line (pl : List Nat) (tail : List Event) :
    rasterEvents (Event.rasterLineEvt pl :: tail)
      = some pl :: rasterEvents tail := by
  simp [rasterEvents]

theorem rasterEvents_cons_zero (b : Bool) (tail : List Event) :
    rasterEvents (Event.zeroRasterEvt b :: tail) = none :: rasterEvents tail := by
  simp [rasterEvents]

theorem rasterPackets_cons_other (c : Cmd) (rest : List Cmd)
    (h : ∀ p, c ≠ Cmd.rasterCmd p) :
    rasterPackets (c :: rest) = rasterPackets rest := by
  cases c <;>
    first
      | exact absurd rfl (h _)
      | simp [rasterPackets]

theorem rasterPackets_cons_raster (p : Packet) (rest : List Cmd) :
    rasterPackets (Cmd.rasterCmd p :: rest) = p :: rasterPackets rest := by
  simp [rasterPackets]

theorem explain_goodseq {m : CMode} {cmds : List Cmd} (h : GoodSeq m cmds) :
    (∀ e ∈ explain ⟨m, true⟩ (cmdStreamBytes cmds), e.isErr = false) ∧
    rasterEvents (explain ⟨m, true⟩ (cmdStreamBytes cmds))
      = (rasterPackets cmds).map pktRow := by
  induction h with
  | eject m =>
    rw [show cmdStreamBytes [Cmd.ejectCmd] = 26 :: ([] : List Nat) from rfl]
    rw [explain_eject, explain_nil_done]
    refine ⟨?_, ?_⟩
    · intro e he
      simp only [List.mem_singleton] at he
      subst he
      rfl
    · rfl
  | statusNotif m v rest hg ih =>
    have hb : cmdStreamBytes (Cmd.statusNotifCmd v :: rest)
        = 27 :: 105 :: 33 :: (v % 256) :: cmdStreamBytes rest := by
      simp [cmdStreamBytes_cons, Cmd.bytes]
    rw [hb, explain_statusNotif]
    refine ⟨?_, ?_⟩
    · intro e he
      rcases List.mem_cons.mp he with rfl | he
      · rfl
      · exact ih.1 e he
    · rw [rasterEvents_cons_other _ _ (fun pl h2 => Event.noConfusion h2)
        (fun b h2 => Event.noConfusion h2),
        rasterPackets_cons_other _ _ (fun p h2 => Cmd.noConfusion h2)]
      exact ih.2
  | legacyXfer m v rest hv hg ih =>
    have hb : cmdStreamBytes (Cmd.legacyXfer v :: rest)
        = 27 :: 105 :: 82 :: (v % 256) :: cmdStreamBytes rest := by
      simp [cmdStreamBytes_cons, Cmd.bytes]
    rw [hb, explain_switchLegacy]
    refine ⟨?_, ?_⟩
    · intro e he
      rcases List.mem_cons.mp he with rfl | he
      · rcases hv with h1 | h1 | h1 <;> simp [Event.isErr, h1]
      · exact ih.1 e he
    · rw [rasterEvents_cons_other _ _ (fun pl h2 => Event.noConfusion h2)
        (fun b h2 => Event.noConfusion h2),
        rasterPackets_cons_other _ _ (fun p h2 => Cmd.noConfusion h2)]
      exact ih.2
  | xfer m v rest hv hg ih =>
    have hb : cmdStreamBytes (Cmd.xferCmd v :: rest)
        = 27 :: 105 :: 97 :: (v % 256) :: cmdStreamBytes rest := by
      simp [cmdStreamBytes_cons, Cmd.bytes]
    rw [hb, explain_switchMode]
    refine ⟨?_, ?_⟩
    · intro e he
      rcases List.mem_cons.mp he with rfl | he
      · rcases hv with h1 | h1 | h1 <;> simp [Event.isErr, h1]
      · exact ih.1 e he
    · rw [rasterEvents_cons_other _ _ (fun pl h2 => Event.noConfusion h2)
        (fun b h2 => Event.noConfusion h2),
        rasterPackets_cons_other _ _ (fun p h2 => Cmd.noConfusion h2)]
      exact ih.2
  | legacyHires m b0 b1 b2 b3 b4 rest hg ih =>
    have hb : cmdStreamBytes (Cmd.legacyHiresCmd b0 b1 b2 b3 b4 :: rest)
        = 27 :: 105 :: 99 :: b0 :: b1 :: b2 :: b3 :: b4 :: cmdStreamBytes rest := by
      simp [cmdStreamBytes_cons, Cmd.bytes]
    rw [hb, explain_legacyHires]
    refine ⟨?_, ?_⟩
    · intro e he
      rcases List.mem_cons.mp he with rfl | he
      · rfl
      · exact ih.1 e he
    · rw [rasterEvents_cons_other _ _ (fun pl h2 => Event.noConfusion h2)
        (fun b h2 => Event.noConfusion h2),
        rasterPackets_cons_other _ _ (fun p h2 => Cmd.noConfusion h2)]
      exact ih.2
  | various m v rest hg ih =>
    have hb : cmdStreamBytes (Cmd.variousModeCmd v :: rest)
        = 27 :: 105 :: 77 :: (v % 256) :: cmdStreamBytes rest := by
      simp [cmdStreamBytes_cons, Cmd.bytes]
    rw [hb, explain_various]
    refine ⟨?_, ?_⟩
    · intro e he
      rcases List.mem_cons.mp he with rfl | he
      · rfl
      · exact ih.1 e he
    · rw [rasterEvents_cons_other _ _ (fun pl h2 => Event.noConfusion h2)
        (fun b h2 => Event.noConfusion h2),
        rasterPackets_cons_other _ _ (fun p h2 => Cmd.noConfusion h2)]
      exact ih.2
  | advanced m v rest hg ih =>
    have hb : cmdStreamBytes (Cmd.advancedModeCmd v :: rest)
        = 27 :: 105 :: 75 :: (v % 256) :: cmdStreamBytes rest := by
      simp [cmdStreamBytes_cons, Cmd.bytes]
    rw [hb, explain_advanced]
    refine ⟨?_, ?_⟩
    · intro e he
      rcases List.mem_cons.mp he with rfl | he
      · rfl
      · exact ih.1 e he
    · rw [rasterEvents_cons_other _ _ (fun pl h2 => Event.noConfusion h2)
        (fun b h2 => Event.noConfusion h2),
        rasterPackets_cons_other _ _ (fun p h2 => Cmd.noConfusion h2)]
      exact ih.2
  | cutEvery m v rest hg ih =>
    have hb : cmdStreamBytes (Cmd.cutEveryCmd v :: rest)
        = 27 :: 105 :: 65 :: (v % 256) :: cmdStreamBytes rest := by
      simp [cmdStreamBytes_cons, Cmd.bytes]
    rw [hb, explain_cutEvery]
    refine ⟨?_, ?_⟩
    · intro e he
      rcases List.mem_cons.mp he with rfl | he
      · rfl
      · exact ih.1 e he
    · rw [rasterEvents_cons_other _ _ (fun pl h2 => Event.noConfusion h2)
        (fun b h2 => Event.noConfusion h2),
        rasterPackets_cons_other _ _ (fun p h2 => Cmd.noConfusion h2)]
      exact ih.2
  | margin m f rest hg ih =>
    have hb : cmdStreamBytes (Cmd.marginCmd f :: rest)
        = 27 :: 105 :: 100 :: (f &&& 255) :: ((f >>> 8) &&& 255)
            :: cmdStreamBytes rest := by
      simp [cmdStreamBytes_cons, Cmd.bytes]
    rw [hb, explain_margin]
    refine ⟨?_, ?_⟩
    · intro e he
      rcases List.mem_cons.mp he with rfl | he
      · rfl
      · exact ih.1 e he
    · rw [rasterEvents_cons_other _ _ (fun pl h2 => Event.noConfusion h2)
        (fun b h2 => Event.noConfusion h2),
        rasterPackets_cons_other _ _ (fun p h2 => Cmd.noConfusion h2)]
      exact ih.2
  | printInfo m a b c2 d e f rest hg ih =>
    have hb : cmdStreamBytes (Cmd.printInfoCmd a b c2 d e f :: rest)
        = 27 :: 105 :: 122 :: a :: b :: (c2 &&& 255) :: d :: (e &&& 255)
            :: ((e >>> 8) &&& 255) :: ((e >>> 16) &&& 255) :: ((e >>> 24) &&& 255)
            :: f :: 0 :: cmdStreamBytes rest := by
      simp [cmdStreamBytes_cons, Cmd.bytes]
    rw [hb, explain_printInfo]
    refine ⟨?_, ?_⟩
    · intro e2 he
      rcases List.mem_cons.mp he with rfl | he
      · rfl
      · exact ih.1 e2 he
    · rw [rasterEvents_cons_other _ _ (fun pl h2 => Event.noConfusion h2)
        (fun b2 h2 => Event.noConfusion h2),
        rasterPackets_cons_other _ _ (fun p h2 => Cmd.noConfusion h2)]
      exact ih.2
  | selectCompr m rest hg ih =>
    have hb : cmdStreamBytes (Cmd.selectComprCmd 2 :: rest)
        = 77 :: 2 :: cmdStreamBytes rest := by
      simp [cmdStreamBytes_cons, Cmd.bytes]
    rw [hb, explain_selectCompr2]
    refine ⟨?_, ?_⟩
    · intro e he
      rcases List.mem_cons.mp he with rfl | he
      · rfl
      · exact ih.1 e he
    · rw [rasterEvents_cons_other _ _ (fun pl h2 => Event.noConfusion h2)
        (fun b h2 => Event.noConfusion h2),
        rasterPackets_cons_other _ _ (fun p h2 => Cmd.noConfusion h2)]
      exact ih.2
  | formfeed m rest hg ih =>
    have hb : cmdStreamBytes (Cmd.formfeedCmd :: rest)
        = 12 :: cmdStreamBytes rest := by
      simp [cmdStreamBytes_cons, Cmd.bytes]
    rw [hb, explain_formfeed]
    refine ⟨?_, ?_⟩
    · intro e he
      rcases List.mem_cons.mp he with rfl | he
      · rfl
      · exact ih.1 e he
    · rw [rasterEvents_cons_other _ _ (fun pl h2 => Event.noConfusion h2)
        (fun b h2 => Event.noConfusion h2),
        rasterPackets_cons_other _ _ (fun p h2 => Cmd.noConfusion h2)]
      exact ih.2
  | raster ql p rest hp hg ih =>
    rw [cmdStreamBytes_cons]
    rw [show (Cmd.rasterCmd p).bytes = p.bytes from rfl]
    rcases hp with rfl | ⟨body, buf, rfl, hruns, h128⟩
    · rw [explain_raster_z]
      refine ⟨?_, ?_⟩
      · intro e he
        rcases List.mem_cons.mp he with rfl | he
        · rfl
        · exact ih.1 e he
      · rw [rasterEvents_cons_zero, rasterPackets_cons_raster]
        simp only [List.map_cons]
        rw [show pktRow Packet.z = none from rfl]
        rw [ih.2]
    · have hrow : pktRow (Packet.enc ql body) = some buf := by
        have hd := decompressTiff_runs hruns []
        rw [List.append_nil] at hd
        simp [pktRow, hd]
      cases ql with
      | true =>
        rw [explain_raster_gq body buf _ hruns h128]
        refine ⟨?_, ?_⟩
        · intro e he
          rcases List.mem_cons.mp he with rfl | he
          · rfl
          · exact ih.1 e he
        · rw [rasterEvents_cons_line, rasterPackets_cons_raster]
          simp only [List.map_cons]
          rw [hrow, ih.2]
      | false =>
        rw [explain_raster_gG body buf _ hruns h128]
        refine ⟨?_, ?_⟩
        · intro e he
          rcases List.mem_cons.mp he with rfl | he
          · rfl
          · exact ih.1 e he
        · rw [rasterEvents_cons_line, rasterPackets_cons_raster]
          simp only [List.map_cons]
          rw [hrow, ih.2]

theorem goodseq_mid_prepend (ql : Bool) (mid : List Cmd) (rest : List Cmd)
    (hmid : ∀ c ∈ mid, MidCmd ql c) (h : GoodSeq CMode.tiff rest) :
    GoodSeq CMode.tiff (mid ++ rest) := by
  induction mid with
  | nil => simpa using h
  | cons c mid ih =>
    have hc := hmid c (List.mem_cons_self c mid)
    have htail := ih (fun c2 hc2 => hmid c2 (List.mem_cons_of_mem c hc2))
    rcases hc with ⟨a, b, c2, d, e, f, rfl⟩ | ⟨p, rfl, hp⟩
    · exact GoodSeq.printInfo _ a b c2 d e f _ htail
    · exact GoodSeq.raster ql p _ hp htail

theorem emptyLineBody_runs (mask : Nat) :
    ∀ n, Runs (emptyLineBody mask n) (List.replicate n mask) := by
  intro n
  induction n using Nat.strong_induction_on with
  | _ n ih =>
    rcases Nat.eq_zero_or_pos n with rfl | hpos
    · rw [emptyLineBody]
      exact Runs.nil
    · obtain ⟨len, rfl⟩ : ∃ len, n = len + 1 := ⟨n - 1, by omega⟩
      rw [emptyLineBody]
      rcases Nat.eq_zero_or_pos len with rfl | hlen
      · rw [show (0 : Nat) + 1 - min (0 + 1) 129 = 0 by omega]
        rw [emptyLineBody]
        rw [show (257 - min (0 + 1) 129) % 256 = 0 by norm_num]
        have h0 := Runs.mixRun [mask] [] [] (by simp) (by simp) Runs.nil
        simpa using h0
      · have hk2 : 2 ≤ min (len + 1) 129 := by omega
        have hk129 : min (len + 1) 129 ≤ 129 := by omega
        have ihr := ih (len + 1 - min (len + 1) 129) (by omega)
        have hsplit : List.replicate (len + 1) mask
            = List.replicate (min (len + 1) 129) mask
              ++ List.replicate (len + 1 - min (len + 1) 129) mask := by
          rw [← List.replicate_add]
          congr 1
          omega
        rw [hsplit]
        have hr := Runs.repRun (min (len + 1) 129) mask
          (emptyLineBody mask (len + 1 - min (len + 1) 129))
          (List.replicate (len + 1 - min (len + 1) 129) mask) hk2 hk129 ihr
        simpa [encRep] using hr

theorem emptyLineBody_length (mask : Nat) :
    ∀ n, (emptyLineBody mask n).length ≤ 2 + 2 * (n / 129) := by
  intro n
  induction n using Nat.strong_induction_on with
  | _ n ih =>
    rcases Nat.eq_zero_or_pos n with rfl | hpos
    · rw [emptyLineBody]
      simp
    · obtain ⟨len, rfl⟩ : ∃ len, n = len + 1 := ⟨n - 1, by omega⟩
      rw [emptyLineBody]
      by_cases hc : len + 1 ≤ 129
      · have h0 : len + 1 - min (len + 1) 129 = 0 := by omega
        rw [h0, emptyLineBody]
        simp
      · have hmin : min (len + 1) 129 = 129 := by omega
        rw [hmin]
        have ihr := ih (len + 1 - 129) (by omega)
        simp only [List.length_cons]
        have hdiv : (len + 1) / 129 = (len + 1 - 129) / 129 + 1 := by omega
        omega

theorem foldl_emit_len {β : Type} (step : List Nat × β → Nat → List Nat × β)
    (hstep : ∀ acc d, (step acc d).1.length = acc.1.length + 1) :
    ∀ (ins : List Nat) (acc : List Nat × β),
      (ins.foldl step acc).1.length = acc.1.length + ins.length := by
  intro ins
  induction ins with
  | nil =>
    intro acc
    simp
  | cons d ins ih =>
    intro acc
    rw [List.foldl_cons, ih (step acc d), hstep acc d]
    simp only [List.length_cons]
    omega

theorem emitMirrorShiftLoop_len (shift mask : Nat) (ins : List Nat) :
    (emitMirrorShiftLoop shift mask ins).1.length = ins.length := by
  unfold emitMirrorShiftLoop
  rw [foldl_emit_len _ (by intro acc d; simp) ins ([], 0, 0)]
  simp

theorem emitRevLoop_len (shift mask : Nat) (ins : List Nat) (b0 n0 : Nat) :
    (emitRevLoop shift mask ins b0 n0).1.length = ins.length := by
  unfold emitRevLoop
  rw [foldl_emit_len _ (by intro acc d; simp) ins ([], b0, n0)]
  simp

theorem generate_emit_line_length (ins : List Nat) (bpl rpb : Nat) (shift : Int)
    (mir : Bool) (mask : Nat)
    (hpre : ins.length + rpb + (if 0 < shift then 1 else 0) ≤ bpl)
    (hmir : mir = true → 0 ≤ shift) :
    (generate_emit_line ins bpl rpb shift mir mask).1.length = bpl := by
  unfold generate_emit_line
  dsimp only
  have hdata : ∀ (data : List Nat × Nat), data.1.length + rpb ≤ bpl →
      (List.replicate rpb mask ++ data.1
        ++ List.replicate (bpl - (rpb + data.1.length)) mask).length = bpl := by
    intro data hd
    simp only [List.length_append, List.length_replicate]
    omega
  by_cases hm : mir = true
  · rw [hm]
    simp only [if_true]
    by_cases hs : shift ≠ 0
    · rw [if_pos hs]
      have hs0 : (0 : Int) ≤ shift := hmir hm
      have hspos : (0 : Int) < shift := lt_of_le_of_ne hs0 (Ne.symm hs)
      rw [if_pos hspos] at hpre
      apply hdata
      simp only [List.length_append, List.length_cons, List.length_nil,
        emitMirrorShiftLoop_len]
      omega
    · rw [if_neg hs]
      apply hdata
      simp only [List.length_map]
      split at hpre <;> omega
  · rw [show mir = false by revert hm; cases mir <;> simp]
    simp only [if_false, Bool.false_eq_true]
    by_cases hs : shift ≠ 0
    · rw [if_pos hs]
      cases hrev : ins.reverse with
      | nil =>
        apply hdata
        simp only [List.length_nil]
        split at hpre <;> omega
      | cons lastb revRest =>
        have hlen : revRest.length + 1 = ins.length := by
          have := congrArg List.length hrev
          simpa using this.symm
        dsimp only
        by_cases hneg : shift < 0
        · rw [if_pos hneg]
          rw [if_neg (by omega : ¬ (0 : Int) < shift)] at hpre
          apply hdata
          simp only [List.length_append, List.length_cons, List.length_nil,
            emitRevLoop_len]
          omega
        · rw [if_neg hneg]
          have hspos : (0 : Int) < shift := by
            rcases lt_trichotomy shift 0 with h1 | h1 | h1
            · exact absurd h1 hneg
            · exact absurd h1 hs
            · exact h1
          rw [if_pos hspos] at hpre
          apply hdata
          simp only [List.length_append, List.length_cons, List.length_nil,
            emitRevLoop_len]
          omega
    · rw [if_neg hs]
      apply hdata
      simp only [List.length_map, List.length_reverse]
      split at hpre <;> omega

theorem flush_mid (o : job_options) (pp : page_params) (page : Nat) (lp : Bool)
    (b : BufSt) (hRLE : o.pixel_xfer = Xfer.RLE) (hb : BufWf o.ql_series b) :
    (∀ c ∈ (flush_rle_buffer o pp page lp b).1, MidCmd o.ql_series c) ∧
    BufWf o.ql_series (flush_rle_buffer o pp page lp b).2 := by
  unfold flush_rle_buffer
  split
  · exact ⟨by simp, hb⟩
  · dsimp only
    constructor
    · intro c hc
      simp only [List.mem_append] at hc
      rcases hc with hc | hc
      · split at hc
        · simp only [List.mem_singleton] at hc
          subst hc
          left
          unfold emit_quality_rollfed_size
          exact ⟨_, _, _, _, _, _, rfl⟩
        · simp at hc
      · rw [hRLE] at hc
        dsimp only at hc
        simp only [List.mem_map] at hc
        obtain ⟨p, hpmem, rfl⟩ := hc
        exact Or.inr ⟨p, rfl, hb p hpmem⟩
    · intro p hp
      simp at hp

theorem ensureBuf_mid (o : job_options) (pp : page_params) (page : Nat)
    (lp : Bool) (b : BufSt) (bytes : Nat) (hRLE : o.pixel_xfer = Xfer.RLE)
    (hb : BufWf o.ql_series b) :
    (∀ c ∈ (ensureBuf o pp page lp b bytes).1, MidCmd o.ql_series c) ∧
    BufWf o.ql_series (ensureBuf o pp page lp b bytes).2 := by
  unfold ensureBuf
  dsimp only
  split
  · split
    · exact ⟨by simp, fun p hp => hb p hp⟩
    · exact flush_mid o pp page lp b hRLE hb
  · exact ⟨by simp, hb⟩

theorem store_line_mid (o : job_options) (pp : page_params) (page : Nat)
    (lp : Bool) (b : BufSt) (buf : List Nat) (hRLE : o.pixel_xfer = Xfer.RLE)
    (hb : BufWf o.ql_series b) (hlen : buf.length ≤ 127) :
    (∀ c ∈ (RLE_store_line o pp page lp b buf).1, MidCmd o.ql_series c) ∧
    BufWf o.ql_series (RLE_store_line o pp page lp b buf).2 := by
  have hpk : PacketWf o.ql_series (RLE_store_line_packet o buf) := by
    unfold RLE_store_line_packet
    split
    · right
      refine ⟨rle_encode buf, buf, rfl, rle_encode_runs buf, ?_⟩
      have h2 := (rle_encode_inv buf).2
      omega
    · left
      rfl
  have hens := ensureBuf_mid o pp page lp b (4 + buf.length + buf.length / 128)
    hRLE hb
  unfold RLE_store_line
  dsimp only
  have hb2 : BufWf o.ql_series
      { (ensureBuf o pp page lp b (4 + buf.length + buf.length / 128)).2 with
        packets := (ensureBuf o pp page lp b
            (4 + buf.length + buf.length / 128)).2.packets
          ++ [RLE_store_line_packet o buf],
        lines := (ensureBuf o pp page lp b
            (4 + buf.length + buf.length / 128)).2.lines + 1 } := by
    intro p hp
    simp only [List.mem_append, List.mem_singleton] at hp
    rcases hp with hp | rfl
    · exact hens.2 p hp
    · exact hpk
  split
  · dsimp only
    have hfl := flush_mid o pp page lp _ hRLE hb2
    constructor
    · intro c hc
      simp only [List.mem_append] at hc
      rcases hc with hc | hc
      · exact hens.1 c hc
      · exact hfl.1 c hc
    · exact hfl.2
  · exact ⟨fun c hc => hens.1 c hc, hb2⟩

theorem store_empty_mid (o : job_options) (pp : page_params) (page : Nat)
    (lp : Bool) (b : BufSt) (n xormask : Nat) (hRLE : o.pixel_xfer = Xfer.RLE)
    (hb : BufWf o.ql_series b) (hbpl : o.bytes_per_line ≤ 255) :
    (∀ c ∈ (RLE_store_empty_lines o pp page lp b n xormask).1,
      MidCmd o.ql_series c) ∧
    BufWf o.ql_series (RLE_store_empty_lines o pp page lp b n xormask).2 := by
  have hpk : PacketWf o.ql_series (RLE_store_empty_packet o xormask) := by
    unfold RLE_store_empty_packet
    split
    · right
      refine ⟨emptyLineBody xormask o.bytes_per_line,
        List.replicate o.bytes_per_line xormask, rfl,
        emptyLineBody_runs xormask o.bytes_per_line, ?_⟩
      have h2 := emptyLineBody_length xormask o.bytes_per_line
      omega
    · left
      rfl
  unfold RLE_store_empty_lines
  dsimp only
  split
  · have hens := ensureBuf_mid o pp page lp { b with lines := b.lines + n }
      (n * ((o.bytes_per_line + 127) / 128)) hRLE (fun p hp => hb p hp)
    constructor
    · intro c hc
      exact hens.1 c hc
    · intro p hp
      simp only [List.mem_append, List.mem_replicate] at hp
      rcases hp with hp | ⟨-, rfl⟩
      · exact hens.2 p hp
      · exact hpk
  · have hens := ensureBuf_mid o pp page lp { b with lines := b.lines + n } n
      hRLE (fun p hp => hb p hp)
    constructor
    · intro c hc
      exact hens.1 c hc
    · intro p hp
      simp only [List.mem_append, List.mem_replicate] at hp
      rcases hp with hp | ⟨-, rfl⟩
      · exact hens.2 p hp
      · exact hpk

theorem clamp_ok (bpl b0 r0 sp : Nat) (hb : 1 ≤ bpl) (hsp : sp ≤ 1) :
    (if bpl < b0 + r0 + sp then
        (bpl - (if bpl < r0 + sp then bpl - sp else r0) - sp,
         if bpl < r0 + sp then bpl - sp else r0)
      else (b0, r0)).1
      + (if bpl < b0 + r0 + sp then
          (bpl - (if bpl < r0 + sp then bpl - sp else r0) - sp,
           if bpl < r0 + sp then bpl - sp else r0)
        else (b0, r0)).2 + sp ≤ bpl := by
  split
  · split <;> (dsimp only; omega)
  · dsimp only
    omega

theorem emit_rows_mid (ctx : row_ctx) (hRLE : ctx.o.pixel_xfer = Xfer.RLE)
    (hbpl : ctx.o.bytes_per_line ≤ 127)
    (hpre : ctx.buflen + ctx.rpb + (if 0 < ctx.shift then 1 else 0)
      ≤ ctx.o.bytes_per_line)
    (hmir : ctx.doMirror = true → 0 ≤ ctx.shift) :
    ∀ (rows : List (List Nat)) (y : Nat) (st : BufSt × Nat),
      BufWf ctx.o.ql_series st.1 →
      (∀ c ∈ (emit_rows ctx y rows st).1, MidCmd ctx.o.ql_series c) ∧
      BufWf ctx.o.ql_series (emit_rows ctx y rows st).2.1 := by
  intro rows
  induction rows with
  | nil =>
    intro y st hb
    obtain ⟨b, el⟩ := st
    rw [emit_rows]
    exact ⟨by simp, hb⟩
  | cons row rest ih =>
    intro y st hb
    obtain ⟨b, el⟩ := st
    rw [emit_rows]
    by_cases hskip : y < ctx.topSkip ∨ y + ctx.botSkip ≥ ctx.cupsHeight
    · rw [if_pos hskip]
      exact ih (y + 1) (b, el) hb
    · rw [if_neg hskip]
      have hglen : (generate_emit_line (row.take ctx.buflen) ctx.o.bytes_per_line
          ctx.rpb ctx.shift ctx.doMirror ctx.xormask).1.length
          = ctx.o.bytes_per_line := by
        apply generate_emit_line_length _ _ _ _ _ _ _ hmir
        have htake : (row.take ctx.buflen).length ≤ ctx.buflen := by
          simp only [List.length_take]
          omega
        split at hpre <;> split <;> omega
      by_cases hne : (generate_emit_line (row.take ctx.buflen)
          ctx.o.bytes_per_line ctx.rpb ctx.shift ctx.doMirror ctx.xormask).2 = true
      · rw [if_pos hne]
        dsimp only
        by_cases hel : el ≠ 0
        · rw [if_pos hel]
          have h1 := store_empty_mid ctx.o ctx.pp ctx.page false b el ctx.xormask
            hRLE hb (by omega)
          have h2 := store_line_mid ctx.o ctx.pp ctx.page false _ _ hRLE h1.2
            (by rw [hglen]; exact hbpl)
          have h3 := ih (y + 1) (_, 0) h2.2
          constructor
          · intro c hc
            simp only [List.mem_append] at hc
            rcases hc with (hc | hc) | hc
            · exact h1.1 c hc
            · exact h2.1 c hc
            · exact h3.1 c hc
          · exact h3.2
        · rw [if_neg hel]
          have h2 := store_line_mid ctx.o ctx.pp ctx.page false b _ hRLE hb
            (by rw [hglen]; exact hbpl)
          have h3 := ih (y + 1) (_, 0) h2.2
          constructor
          · intro c hc
            simp only [List.nil_append, List.mem_append] at hc
            rcases hc with hc | hc
            · exact h2.1 c hc
            · exact h3.1 c hc
          · exact h3.2
      · rw [if_neg hne]
        exact ih (y + 1) (b, el + 1) hb

theorem emit_raster_lines_mid (o : job_options) (pp : page_params) (page : Nat)
    (st : BufSt × Nat) (hRLE : o.pixel_xfer = Xfer.RLE)
    (hb : BufWf o.ql_series st.1) (hbpl1 : 1 ≤ o.bytes_per_line)
    (hbpl : o.bytes_per_line ≤ 127) :
    (∀ c ∈ (emit_raster_lines o pp page st).1, MidCmd o.ql_series c) ∧
    BufWf o.ql_series (emit_raster_lines o pp page st).2.1 := by
  unfold emit_raster_lines
  dsimp only
  apply emit_rows_mid _ hRLE hbpl ?hpre ?hmir pp.rows 0 _ hb
  case hpre =>
    dsimp only
    apply clamp_ok
    · exact hbpl1
    · split <;> split <;> omega
  case hmir =>
    dsimp only
    intro h
    rw [if_neg (by simpa using h)]
    exact Int.ofNat_nonneg _

theorem goodseq_append_ite {m : CMode} (c : Prop) [inst : Decidable c]
    (x : Cmd) (rest : List Cmd)
    (hx : c → GoodSeq m rest → GoodSeq m (x :: rest)) (h : GoodSeq m rest) :
    GoodSeq m ((if c then [x] else []) ++ rest) := by
  split
  next hc => exact hx hc h
  next => exact h

theorem goodseq_append_ite2 {m : CMode} (c d : Prop) [inst : Decidable c]
    [inst2 : Decidable d] (x y : Cmd) (rest : List Cmd)
    (hx : GoodSeq m rest → GoodSeq m (x :: rest))
    (hy : GoodSeq m rest → GoodSeq m (y :: rest)) (h : GoodSeq m rest) :
    GoodSeq m ((if c then (if d then [x] else [y]) else []) ++ rest) := by
  split
  · split
    · exact hx h
    · exact hy h
  · exact h

theorem goodseq_pageCmds (o : job_options) (pp : page_params) (m : CMode)
    (hden : ¬ (1 ≤ o.print_density ∧ o.print_density ≤ 5))
    (hRLE : o.pixel_xfer = Xfer.RLE) (rest : List Cmd)
    (h : GoodSeq CMode.tiff rest) :
    GoodSeq m (emit_page_cmds o pp ++ rest) := by
  unfold emit_page_cmds
  rw [if_neg hden, if_pos hRLE,
    if_neg (show ¬ o.pixel_xfer = Xfer.BIP by rw [hRLE]; intro h2; cases h2)]
  simp only [List.append_assoc, List.nil_append, List.singleton_append,
    List.cons_append]
  refine goodseq_append_ite2 _ _ _ _ _
    (fun h2 => GoodSeq.legacyHires _ _ _ _ _ _ _ h2)
    (fun h2 => GoodSeq.legacyHires _ _ _ _ _ _ _ h2) ?_
  refine GoodSeq.various _ _ _ (GoodSeq.advanced _ _ _ ?_)
  refine goodseq_append_ite _ _ _ (fun _ h2 => GoodSeq.cutEvery _ _ _ h2) ?_
  exact GoodSeq.margin _ _ _ (GoodSeq.selectCompr _ _ h)

theorem store_line_packet_payload (o : job_options) (buf : List Nat) :
    pktRow (RLE_store_line_packet o buf)
      = if buf.foldl (· ||| ·) 0 ≠ 0 then some buf else none := by
  unfold RLE_store_line_packet
  split
  next hnz =>
    have hd := decompressTiff_runs (rle_encode_runs buf) []
    rw [List.append_nil] at hd
    simp [pktRow, hd]
  next hnz =>
    rfl

theorem process_pages_goodseq (o : job_options) (hRLE : o.pixel_xfer = Xfer.RLE)
    (hbpl1 : 1 ≤ o.bytes_per_line) (hbpl : o.bytes_per_line ≤ 127) :
    ∀ (pages : List page_params) (page : Nat) (b : BufSt) (el : Nat),
      2 ≤ page → BufWf o.ql_series b → pages ≠ [] →
      GoodSeq CMode.tiff (process_pages o page pages (b, el)) := by
  intro pages
  induction pages with
  | nil =>
    intro page b el _ _ hne
    exact absurd rfl hne
  | cons pp rest ih =>
    intro page b el h2 hb _
    rw [process_pages]
    dsimp only
    rw [if_neg (by omega : ¬ page = 1)]
    have hr1m := emit_raster_lines_mid o pp page (b, el) hRLE hb hbpl1 hbpl
    by_cases hl : rest.isEmpty = true
    · rw [if_neg (not_not_intro hl)]
      by_cases hcp : o.concat_pages = true
      · rw [if_neg (not_not_intro hcp)]
        simp only [List.nil_append, List.append_assoc]
        refine goodseq_mid_prepend _ _ _ hr1m.1 ?_
        refine goodseq_mid_prepend _ _ _ (store_empty_mid o pp page rest.isEmpty
          _ pp.botConcatPx _ hRLE hr1m.2 (by omega)).1 ?_
        refine goodseq_mid_prepend _ _ _ (flush_mid o pp page rest.isEmpty _
          hRLE (store_empty_mid o pp page rest.isEmpty _ pp.botConcatPx _ hRLE
            hr1m.2 (by omega)).2).1 ?_
        exact GoodSeq.eject _
      · rw [if_pos hcp]
        simp only [List.nil_append, List.append_assoc]
        refine goodseq_mid_prepend _ _ _ hr1m.1 ?_
        refine goodseq_mid_prepend _ _ _ (store_empty_mid o pp page rest.isEmpty
          _ _ _ hRLE hr1m.2 (by omega)).1 ?_
        refine goodseq_mid_prepend _ _ _ (flush_mid o pp page rest.isEmpty _
          hRLE (store_empty_mid o pp page rest.isEmpty _ _ _ hRLE
            hr1m.2 (by omega)).2).1 ?_
        exact GoodSeq.eject _
    · rw [if_pos hl]
      have hrne : rest ≠ [] := by
        intro h0
        subst h0
        simp at hl
      by_cases hcp : o.concat_pages = true
      · rw [if_neg (not_not_intro hcp)]
        simp only [List.nil_append, List.append_assoc]
        refine goodseq_mid_prepend _ _ _ hr1m.1 ?_
        exact ih (page + 1) _ _ (by omega) hr1m.2 hrne
      · rw [if_pos hcp]
        simp only [List.nil_append, List.append_assoc, List.singleton_append]
        refine goodseq_mid_prepend _ _ _ hr1m.1 ?_
        refine goodseq_mid_prepend _ _ _ (store_empty_mid o pp page rest.isEmpty
          _ _ _ hRLE hr1m.2 (by omega)).1 ?_
        refine goodseq_mid_prepend _ _ _ (flush_mid o pp page rest.isEmpty _
          hRLE (store_empty_mid o pp page rest.isEmpty _ _ _ hRLE
            hr1m.2 (by omega)).2).1 ?_
        refine GoodSeq.formfeed _ _ ?_
        refine ih (page + 1) _ 0 (by omega)
          (flush_mid o pp page rest.isEmpty _ hRLE (store_empty_mid o pp page
            rest.isEmpty _ _ _ hRLE hr1m.2 (by omega)).2).2 hrne

/-- C2: the claim fails as stated — the decoder has no case for the
`ESC i D` density command the encoder emits when `print_density` is 1..5,
so decoding such a job's stream aborts with a fatal parse error instead of
yielding the stored raster lines. -/
theorem density_job_decodes_fatally :
    Event.fatalEvt ∈ explain ⟨CMode.unspec, false⟩
      (cmdStreamBytes (process_rasterdata
        { optsBase with print_density := 3 } [pageBase])) := by
  have hstream : process_rasterdata { optsBase with print_density := 3 }
        [pageBase]
      = [Cmd.zeros 350, Cmd.initCmd, Cmd.densityCmd 3, Cmd.variousModeCmd 0,
         Cmd.advancedModeCmd 0, Cmd.marginCmd 0, Cmd.selectComprCmd 2,
         Cmd.rasterCmd (Packet.enc false [3, 128, 0, 0, 1]),
         Cmd.rasterCmd Packet.z,
         Cmd.rasterCmd (Packet.enc false [3, 32, 192, 64, 128]),
         Cmd.ejectCmd] := by rfl
  rw [hstream]
  have hbytes : cmdStreamBytes
        [Cmd.zeros 350, Cmd.initCmd, Cmd.densityCmd 3, Cmd.variousModeCmd 0,
         Cmd.advancedModeCmd 0, Cmd.marginCmd 0, Cmd.selectComprCmd 2,
         Cmd.rasterCmd (Packet.enc false [3, 128, 0, 0, 1]),
         Cmd.rasterCmd Packet.z,
         Cmd.rasterCmd (Packet.enc false [3, 32, 192, 64, 128]),
         Cmd.ejectCmd]
      = List.replicate 350 0 ++ 27 :: 64 :: 27 :: 105 :: 68 :: 3 ::
          [27, 105, 77, 0, 27, 105, 75, 0, 27, 105, 100, 0, 0, 77, 2,
           71, 5, 0, 3, 128, 0, 0, 1, 90, 71, 5, 0, 3, 32, 192, 64, 128,
           26] := by rfl
  rw [hbytes]
  rw [explain_zeros ⟨CMode.unspec, false⟩ 350 (by omega) 27 (by omega)]
  rw [explain_init]
  dsimp only
  rw [explain_density_fatal]
  simp

/-- C2 (amended): for a run-length job whose options avoid the commands
the companion decoder does not understand (no `ESC i D` density command,
transfer-mode switch values limited to 0/1/3) and whose row width fits
the raster-packet length framing (1..255 bytes per line, at most 253 for
the ql-series 'g' tag), decoding the encoder's byte stream produces no
error event, its raster events are exactly the stored packets in order —
each encoded row decompressing to the row bytes whose run sequence was
stored, each 'Z' standing for a zero row — and the packet stored for a
row `buf` decodes back to `buf` itself (or is 'Z' exactly when the row is
all zero bytes). -/
theorem rle_job_decodes_to_stored_rows (o : job_options)
    (pages : List page_params)
    (hRLE : o.pixel_xfer = Xfer.RLE)
    (hden : ¬ (1 ≤ o.print_density ∧ o.print_density ≤ 5))
    (hlx : 0 ≤ o.legacy_xfer_mode → o.legacy_xfer_mode < 256 →
      o.legacy_xfer_mode = 0 ∨ o.legacy_xfer_mode = 1 ∨ o.legacy_xfer_mode = 3)
    (hx : 0 ≤ o.xfer_mode → o.xfer_mode < 256 →
      o.xfer_mode = 0 ∨ o.xfer_mode = 1 ∨ o.xfer_mode = 3)
    (hbpl1 : 1 ≤ o.bytes_per_line) (hbpl : o.bytes_per_line ≤ 127) :
    (∀ e ∈ explain ⟨CMode.unspec, false⟩
        (cmdStreamBytes (process_rasterdata o pages)), e.isErr = false) ∧
    rasterEvents (explain ⟨CMode.unspec, false⟩
        (cmdStreamBytes (process_rasterdata o pages)))
      = (rasterPackets (process_rasterdata o pages)).map pktRow ∧
    (∀ buf : List Nat, pktRow (RLE_store_line_packet o buf)
      = if buf.foldl (· ||| ·) 0 ≠ 0 then some buf else none) := by
  have hmain : (∀ e ∈ explain ⟨CMode.unspec, false⟩
        (cmdStreamBytes (process_rasterdata o pages)), e.isErr = false) ∧
      rasterEvents (explain ⟨CMode.unspec, false⟩
        (cmdStreamBytes (process_rasterdata o pages)))
        = (rasterPackets (process_rasterdata o pages)).map pktRow := by
    cases pages with
    | nil =>
      rw [show process_rasterdata o [] = [] from rfl]
      rw [show cmdStreamBytes [] = [] from rfl]
      rw [explain_nil_done]
      exact ⟨by simp, rfl⟩
    | cons pp rest =>
      have hstream : ∃ tail, process_rasterdata o (pp :: rest)
          = Cmd.zeros 350 :: Cmd.initCmd :: tail
          ∧ GoodSeq CMode.unspec tail := by
        unfold process_rasterdata
        rw [process_pages]
        dsimp only
        rw [if_pos rfl]
        have hwf0 : BufWf o.ql_series ⟨[], 0, 0⟩ :=
          fun p hp => absurd hp (List.not_mem_nil p)
        have hr1m := emit_raster_lines_mid o pp 1 (⟨[], 0, 0⟩, 0) hRLE hwf0
          hbpl1 hbpl
        have hoptseq : ∀ (tl : List Cmd), GoodSeq CMode.tiff tl →
            GoodSeq CMode.unspec
              ((if 0 ≤ o.legacy_xfer_mode ∧ o.legacy_xfer_mode < 256 then
                  [Cmd.legacyXfer o.legacy_xfer_mode.toNat] else [])
                ++ ((if 0 ≤ o.xfer_mode ∧ o.xfer_mode < 256 then
                  [Cmd.xferCmd o.xfer_mode.toNat] else [])
                ++ ((if o.status_notification ≠ -1 then
                  [Cmd.statusNotifCmd o.status_notification.toNat] else [])
                ++ (emit_page_cmds o pp ++ tl)))) := by
          intro tl htl
          refine goodseq_append_ite _ _ _ (fun hc h2 =>
            GoodSeq.legacyXfer _ _ _ ?_ h2) ?_
          · rcases hlx hc.1 hc.2 with h1 | h1 | h1 <;> rw [h1] <;> decide
          refine goodseq_append_ite _ _ _ (fun hc h2 =>
            GoodSeq.xfer _ _ _ ?_ h2) ?_
          · rcases hx hc.1 hc.2 with h1 | h1 | h1 <;> rw [h1] <;> decide
          refine goodseq_append_ite _ _ _
            (fun _ h2 => GoodSeq.statusNotif _ _ _ h2) ?_
          exact goodseq_pageCmds o pp _ hden hRLE tl htl
        by_cases hl : rest.isEmpty = true
        · rw [if_neg (not_not_intro hl)]
          by_cases hcp : o.concat_pages = true
          · rw [if_neg (not_not_intro hcp)]
            simp only [emit_job_cmds, List.append_assoc, List.cons_append,
              List.nil_append]
            refine ⟨_, rfl, ?_⟩
            apply hoptseq
            refine goodseq_mid_prepend _ _ _ hr1m.1 ?_
            refine goodseq_mid_prepend _ _ _ (store_empty_mid o pp 1
              rest.isEmpty _ pp.botConcatPx _ hRLE hr1m.2 (by omega)).1 ?_
            refine goodseq_mid_prepend _ _ _ (flush_mid o pp 1 rest.isEmpty _
              hRLE (store_empty_mid o pp 1 rest.isEmpty _ pp.botConcatPx _
                hRLE hr1m.2 (by omega)).2).1 ?_
            exact GoodSeq.eject _
          · rw [if_pos hcp]
            simp only [emit_job_cmds, List.append_assoc, List.cons_append,
              List.nil_append]
            refine ⟨_, rfl, ?_⟩
            apply hoptseq
            refine goodseq_mid_prepend _ _ _ hr1m.1 ?_
            refine goodseq_mid_prepend _ _ _ (store_empty_mid o pp 1
              rest.isEmpty _ _ _ hRLE hr1m.2 (by omega)).1 ?_
            refine goodseq_mid_prepend _ _ _ (flush_mid o pp 1 rest.isEmpty _
              hRLE (store_empty_mid o pp 1 rest.isEmpty _ _ _
                hRLE hr1m.2 (by omega)).2).1 ?_
            exact GoodSeq.eject _
        · rw [if_pos hl]
          have hrne : rest ≠ [] := by
            intro h0
            subst h0
            simp at hl
          by_cases hcp : o.concat_pages = true
          · rw [if_neg (not_not_intro hcp)]
            simp only [emit_job_cmds, List.append_assoc, List.cons_append,
              List.nil_append]
            refine ⟨_, rfl, ?_⟩
            apply hoptseq
            refine goodseq_mid_prepend _ _ _ hr1m.1 ?_
            exact process_pages_goodseq o hRLE hbpl1 hbpl rest (1 + 1)
              _ _ (by omega) hr1m.2 hrne
          · rw [if_pos hcp]
            simp only [emit_job_cmds, List.append_assoc, List.cons_append,
              List.nil_append]
            refine ⟨_, rfl, ?_⟩
            apply hoptseq
            refine goodseq_mid_prepend _ _ _ hr1m.1 ?_
            refine goodseq_mid_prepend _ _ _ (store_empty_mid o pp 1
              rest.isEmpty _ _ _ hRLE hr1m.2 (by omega)).1 ?_
            refine goodseq_mid_prepend _ _ _ (flush_mid o pp 1 rest.isEmpty _
              hRLE (store_empty_mid o pp 1 rest.isEmpty _ _ _
                hRLE hr1m.2 (by omega)).2).1 ?_
            refine GoodSeq.formfeed _ _ ?_
            exact process_pages_goodseq o hRLE hbpl1 hbpl rest (1 + 1)
              _ 0 (by omega) (flush_mid o pp 1 rest.isEmpty _ hRLE
                (store_empty_mid o pp 1 rest.isEmpty _ _ _ hRLE hr1m.2
                  (by omega)).2).2 hrne
      obtain ⟨tail, heq, hgood⟩ := hstream
      rw [heq]
      have hbytes : cmdStreamBytes (Cmd.zeros 350 :: Cmd.initCmd :: tail)
          = List.replicate 350 0 ++ 27 :: 64 :: cmdStreamBytes tail := by
        rw [cmdStreamBytes_cons, cmdStreamBytes_cons]
        rfl
      rw [hbytes]
      rw [explain_zeros ⟨CMode.unspec, false⟩ 350 (by omega) 27 (by omega)]
      rw [explain_init]
      dsimp only
      have hg := explain_goodseq hgood
      constructor
      · intro e he
        rcases List.mem_cons.mp he with rfl | he
        · rfl
        rcases List.mem_cons.mp he with rfl | he
        · rfl
        · exact hg.1 e he
      · rw [rasterEvents_cons_other _ _ (fun pl h2 => Event.noConfusion h2)
          (fun b2 h2 => Event.noConfusion h2)]
        rw [rasterEvents_cons_other _ _ (fun pl h2 => Event.noConfusion h2)
          (fun b2 h2 => Event.noConfusion h2)]
        rw [hg.2]
        rw [rasterPackets_cons_other _ _ (fun p h2 => Cmd.noConfusion h2)]
        rw [rasterPackets_cons_other _ _ (fun p h2 => Cmd.noConfusion h2)]
  exact ⟨hmain.1, hmain.2, fun buf => store_line_packet_payload o buf⟩

theorem rle_job_decodes_to_stored_rows_witness :
    (∀ e ∈ explain ⟨CMode.unspec, false⟩
        (cmdStreamBytes (process_rasterdata optsBase [pageBase])),
      e.isErr = false) ∧
    rasterEvents (explain ⟨CMode.unspec, false⟩
        (cmdStreamBytes (process_rasterdata optsBase [pageBase])))
      = (rasterPackets (process_rasterdata optsBase [pageBase])).map pktRow :=
  ⟨(rle_job_decodes_to_stored_rows optsBase [pageBase] rfl (by decide)
      (by decide) (by decide) (by decide) (by decide)).1,
   (rle_job_decodes_to_stored_rows optsBase [pageBase] rfl (by decide)
      (by decide) (by decide) (by decide) (by decide)).2.1⟩

end Ptouch
